import Mathlib

/-!
Verification of the soul-pluralism evaluation engine.

This file gives a shallow embedding, in Lean 4, of the core of the
repository: the bounded-concurrency evaluation executor with per-record
retry (`evaluate_records` in `iterative_revision.py`, `run_all_tasks` in
`eval.py`), the verdict and JSON response parsers
(`parse_judgement_reasoning`, `parse_json_response`), the evaluator
(`compute_accuracy`, `collect_wrong_examples`), the revision controller
(`_extract_soul_doc`), and the iteration orchestrator (`async_main`'s
round loop).  Python strings are modelled as `List Char`, Python dicts as
association lists, `json.loads` as an executable JSON parser, floats as
rationals, and the cooperative scheduler as an explicit transition
system.  Theorems then settle the specification's claims against these
definitions.
-/

set_option autoImplicit false

namespace SoulPluralism

/-- Python strings are modelled as lists of characters. -/
abbrev PyStr := List Char

/-! ### Per-record retry loops

`iterative_revision.py`'s `_call` runs `for attempt in range(max_retries)`
and sleeps `retry_delay` when `attempt < max_retries - 1`;
`eval.py`'s `task` runs `for attempt in range(max_retries + 1)` and sleeps
when `attempt < max_retries`.  Both break out of the loop as soon as a
valid verdict is obtained.  An attempt's outcome is `some b` when the
remote call succeeds and parses to a valid verdict `b`, and `none` when it
times out, raises, or yields no valid verdict.  The simulator returns
`(attempts made, sleeps made, final verdict)`. -/

/-- Shared body of both per-record retry loops: starting at attempt index
`a` with `fuel` loop iterations left, run attempts until one yields a
verdict or the range is exhausted, sleeping after each failed attempt
whose index is `< sleepBelow`.  Returns
`(attempts made, sleeps made, final verdict)`. -/
def retryGo (outcome : Nat → Option Bool) (sleepBelow : Nat) :
    Nat → Nat → Nat × Nat × Option Bool
  | _, 0 => (0, 0, none)
  | a, fuel + 1 =>
    match outcome a with
    | some v => (1, 0, some v)
    | none =>
      let s := if a < sleepBelow then 1 else 0
      let t := retryGo outcome sleepBelow (a + 1) fuel
      (t.1 + 1, t.2.1 + s, t.2.2)

/-- Retry loop of `_call` in `iterative_revision.py`:
`for attempt in range(max_retries)`, sleeping when
`attempt < max_retries - 1`. -/
def call_retry (outcome : Nat → Option Bool) (max_retries : Nat) :
    Nat × Nat × Option Bool :=
  retryGo outcome (max_retries - 1) 0 max_retries

/-- Retry loop of `task` in `eval.py`:
`for attempt in range(max_retries + 1)`, sleeping when
`attempt < max_retries`. -/
def task_retry (outcome : Nat → Option Bool) (max_retries : Nat) :
    Nat × Nat × Option Bool :=
  retryGo outcome max_retries 0 (max_retries + 1)

theorem retryGo_attempts_allfail (outcome : Nat → Option Bool)
    (h : ∀ a, outcome a = none) (sleepBelow : Nat) :
    ∀ fuel a, (retryGo outcome sleepBelow a fuel).1 = fuel := by
  intro fuel
  induction fuel with
  | zero => intro a; rfl
  | succ n ih =>
    intro a
    simp only [retryGo, h a, ih (a + 1)]

theorem retryGo_sleeps_allfail (outcome : Nat → Option Bool)
    (h : ∀ a, outcome a = none) (sleepBelow : Nat) :
    ∀ fuel a, (retryGo outcome sleepBelow a fuel).2.1 =
      min fuel (sleepBelow - a) := by
  intro fuel
  induction fuel with
  | zero => intro a; simp [retryGo]
  | succ n ih =>
    intro a
    simp only [retryGo, h a, ih (a + 1)]
    rcases Nat.lt_or_ge a sleepBelow with hlt | hge
    · simp only [if_pos hlt]
      omega
    · simp only [if_neg (Nat.not_lt.mpr hge)]
      omega

theorem retryGo_none_allfail (outcome : Nat → Option Bool)
    (h : ∀ a, outcome a = none) (sleepBelow : Nat) :
    ∀ fuel a, (retryGo outcome sleepBelow a fuel).2.2 = none := by
  intro fuel
  induction fuel with
  | zero => intro a; rfl
  | succ n ih =>
    intro a
    simp only [retryGo, h a, ih (a + 1)]

theorem retryGo_first_success (outcome : Nat → Option Bool)
    (sleepBelow : Nat) :
    ∀ k fuel a v, k < fuel → outcome (a + k) = some v →
      (∀ j, j < k → outcome (a + j) = none) →
      (retryGo outcome sleepBelow a fuel).1 = k + 1 ∧
      (retryGo outcome sleepBelow a fuel).2.2 = some v := by
  intro k
  induction k with
  | zero =>
    intro fuel a v hk hv _
    match fuel, hk with
    | fuel + 1, _ =>
      simp only [Nat.add_zero] at hv
      simp [retryGo, hv]
  | succ m ih =>
    intro fuel a v hk hv hfail
    match fuel, hk with
    | fuel + 1, hk =>
      have h0 : outcome a = none := by
        have := hfail 0 (Nat.succ_pos m)
        simpa using this
      have hv' : outcome (a + 1 + m) = some v := by
        have : a + 1 + m = a + (m + 1) := by omega
        rw [this]; exact hv
      have hfail' : ∀ j, j < m → outcome (a + 1 + j) = none := by
        intro j hj
        have : a + 1 + j = a + (j + 1) := by omega
        rw [this]; exact hfail (j + 1) (by omega)
      have := ih fuel (a + 1) v (by omega) hv' hfail'
      simp only [retryGo, h0]
      exact ⟨by simp [this.1], by simp [this.2]⟩

/-! ### Evaluator: accuracy and wrong-example sampling -/

/-- Evaluation record as seen by `compute_accuracy` and
`collect_wrong_examples`: `prediction` models `r.get("prediction")`
(`none` when the key is absent or evaluation failed permanently), `label`
models `bool(r["label"])`. -/
structure EvalRecord where
  prediction : Option Bool
  label : Bool
deriving DecidableEq

/-- Python's `r.get("prediction") == bool(r["label"])`: `None` compares
unequal to every `bool`, so a null prediction never matches. -/
def predictionMatches (r : EvalRecord) : Bool :=
  match r.prediction with
  | some p => p == r.label
  | none => false

/-- Model of `compute_accuracy` in `iterative_revision.py`:
`correct / len(records) if records else 0.0`, with floats modelled as
rationals. -/
def compute_accuracy (records : List EvalRecord) : ℚ :=
  if records.isEmpty then 0
  else (records.countP predictionMatches : ℚ) / (records.length : ℚ)

/-- Linear congruential generator standing in for the seeded
`random.Random(seed)` pseudo-random stream: a deterministic function of
its state, as the Mersenne Twister is of its seed. -/
def lcgNext (s : Nat) : Nat := (s * 1103515245 + 12345) % 2147483648

/-- Executable model of `random.Random(seed).sample(l, k)`: draw `k`
elements without replacement, consuming one generator state per draw.
Like the original it is a pure function of `(seed, l, k)`, returns
exactly `k` elements drawn from `l` when `k ≤ l.length`, and never
invents elements. -/
def sampleGo {α : Type} (s : Nat) (l : List α) : Nat → List α
  | 0 => []
  | k + 1 =>
    match l[s % l.length]? with
    | some x => x :: sampleGo (lcgNext s) (l.eraseIdx (s % l.length)) k
    | none => []

/-- Seeded sampling entry point (model of `rng.sample(wrong, max_examples)`
with `rng = random.Random(seed)`). -/
def sampleSeeded {α : Type} (seed : Nat) (l : List α) (k : Nat) : List α :=
  sampleGo (lcgNext seed) l k

/-- Model of `collect_wrong_examples` in `iterative_revision.py`: filter
to records whose prediction differs from their label; if more than
`max_examples` remain, draw a seeded sample of `max_examples` of them. -/
def collect_wrong_examples (records : List EvalRecord)
    (max_examples : Nat) (seed : Nat) : List EvalRecord :=
  let wrong := records.filter (fun r => !predictionMatches r)
  if wrong.length > max_examples then sampleSeeded seed wrong max_examples
  else wrong

theorem sampleGo_length {α : Type} :
    ∀ (k : Nat) (s : Nat) (l : List α), k ≤ l.length →
      (sampleGo s l k).length = k := by
  intro k
  induction k with
  | zero => intro s l _; rfl
  | succ m ih =>
    intro s l hk
    have hlen : 0 < l.length := by omega
    have hidx : s % l.length < l.length := Nat.mod_lt _ hlen
    have hget : l[s % l.length]? = some l[s % l.length] :=
      List.getElem?_eq_getElem hidx
    simp only [sampleGo, hget, List.length_cons]
    rw [ih (lcgNext s) (l.eraseIdx (s % l.length))
      (by rw [List.length_eraseIdx_of_lt hidx]; omega)]

theorem sampleGo_subset {α : Type} :
    ∀ (k : Nat) (s : Nat) (l : List α) (x : α), x ∈ sampleGo s l k →
      x ∈ l := by
  intro k
  induction k with
  | zero => intro s l x hx; simp [sampleGo] at hx
  | succ m ih =>
    intro s l x hx
    simp only [sampleGo] at hx
    match hmem : l[s % l.length]? with
    | some y =>
      rw [hmem] at hx
      rcases List.mem_cons.mp hx with h | h
      · subst h; exact List.getElem?_mem hmem
      · exact (List.eraseIdx_sublist l (s % l.length)).subset (ih _ _ _ h)
    | none => rw [hmem] at hx; simp at hx

/-- C2: the claim as frozen states that the per-record retry loop —
citing both `_call` in `iterative_revision.py` and `task` in `eval.py` —
makes exactly `max_retries + 1` attempts when every attempt fails.  On
`_call` this is false: with `max_retries = 3` and every attempt failing,
exactly 3 attempts are made, not 4. -/
theorem C2_counterexample :
    (call_retry (fun _ => none) 3).1 = 3 ∧
    (call_retry (fun _ => none) 3).1 ≠ 3 + 1 := by
  exact ⟨rfl, by decide⟩

/-- C2 (amended): when every attempt fails, `eval.py`'s `task` makes
exactly `max_retries + 1` attempts with a fixed `retry_delay` sleep
between consecutive attempts (`max_retries` sleeps), while
`iterative_revision.py`'s `_call` makes exactly `max_retries` attempts
(`max_retries - 1` sleeps); in both loops, as soon as an attempt yields a
valid verdict no further attempts are made. -/
theorem C2_retry_bound (outcome : Nat → Option Bool) (max_retries : Nat) :
    ((∀ a, outcome a = none) →
      (call_retry outcome max_retries).1 = max_retries ∧
      (task_retry outcome max_retries).1 = max_retries + 1 ∧
      (call_retry outcome max_retries).2.1 = max_retries - 1 ∧
      (task_retry outcome max_retries).2.1 = max_retries ∧
      (call_retry outcome max_retries).2.2 = none ∧
      (task_retry outcome max_retries).2.2 = none) ∧
    (∀ k v, k < max_retries → outcome k = some v →
      (∀ j, j < k → outcome j = none) →
      (call_retry outcome max_retries).1 = k + 1 ∧
      (call_retry outcome max_retries).2.2 = some v) ∧
    (∀ k v, k < max_retries + 1 → outcome k = some v →
      (∀ j, j < k → outcome j = none) →
      (task_retry outcome max_retries).1 = k + 1 ∧
      (task_retry outcome max_retries).2.2 = some v) := by
  refine ⟨fun h => ?_, fun k v hk hv hf => ?_, fun k v hk hv hf => ?_⟩
  · refine ⟨retryGo_attempts_allfail outcome h _ _ _,
      retryGo_attempts_allfail outcome h _ _ _, ?_, ?_,
      retryGo_none_allfail outcome h _ _ _,
      retryGo_none_allfail outcome h _ _ _⟩
    · rw [call_retry, retryGo_sleeps_allfail outcome h]
      omega
    · rw [task_retry, retryGo_sleeps_allfail outcome h]
      omega
  · exact retryGo_first_success outcome _ k max_retries 0 v hk
      (by simpa using hv) (fun j hj => by simpa using hf j hj)
  · exact retryGo_first_success outcome _ k (max_retries + 1) 0 v hk
      (by simpa using hv) (fun j hj => by simpa using hf j hj)

/-- Witness for C2's amended theorem at concrete inputs: an
always-failing outcome with `max_retries = 2`, and an outcome first
succeeding at attempt index 1 with `max_retries = 3`. -/
theorem C2_retry_bound_witness :
    ((call_retry (fun _ => none) 2).1 = 2 ∧
      (task_retry (fun _ => none) 2).1 = 2 + 1) ∧
    (call_retry (fun a => if a = 1 then some true else none) 3).1 = 1 + 1 := by
  refine ⟨⟨?_, ?_⟩, ?_⟩
  · exact ((C2_retry_bound (fun _ => none) 2).1 (fun _ => rfl)).1
  · exact (((C2_retry_bound (fun _ => none) 2).1 (fun _ => rfl)).2).1
  · exact (((C2_retry_bound (fun a => if a = 1 then some true else none)
      3).2).1 1 true (by decide) (by decide)
      (fun j hj => by
        have hj0 : j = 0 := by omega
        subst hj0; rfl)).1

/-- C7: `compute_accuracy` returns the number of records whose prediction
equals their boolean label divided by the total record count; records
with a null prediction never match and so count against accuracy; the
empty list yields 0 rather than an error; and predictions `[T,F,T,T]`
against labels `[T,T,T,F]` score `1/2`. -/
theorem C7_compute_accuracy (records : List EvalRecord) :
    compute_accuracy [] = 0 ∧
    compute_accuracy records * (records.length : ℚ) =
      (records.countP predictionMatches : ℚ) ∧
    (records ≠ [] →
      compute_accuracy records =
        (records.countP predictionMatches : ℚ) / (records.length : ℚ)) ∧
    (∀ r : EvalRecord, r.prediction = none → predictionMatches r = false) ∧
    compute_accuracy
      [⟨some true, true⟩, ⟨some false, true⟩, ⟨some true, true⟩,
        ⟨some true, false⟩] = 1 / 2 := by
  refine ⟨rfl, ?_, fun h => ?_, fun r hr => ?_, ?_⟩
  · rw [compute_accuracy]
    rcases records with _ | ⟨r, rest⟩
    · simp
    · rw [if_neg (by simp)]
      rw [div_mul_cancel₀]
      exact Nat.cast_ne_zero.mpr (by simp)
  · rw [compute_accuracy, if_neg (by simpa using h)]
  · simp [predictionMatches, hr]
  · rw [compute_accuracy]
    rw [show List.countP predictionMatches
      [(⟨some true, true⟩ : EvalRecord), ⟨some false, true⟩,
        ⟨some true, true⟩, ⟨some true, false⟩] = 2 from rfl]
    norm_num

/-- Witness for C7 at a concrete record list with a null prediction. -/
theorem C7_compute_accuracy_witness :
    compute_accuracy [⟨none, true⟩, ⟨some true, true⟩] = 1 / 2 := by
  have h := (C7_compute_accuracy [⟨none, true⟩, ⟨some true, true⟩]).2.2.1
    (by simp)
  rw [h]
  rw [show List.countP predictionMatches
    [(⟨none, true⟩ : EvalRecord), ⟨some true, true⟩] = 1 from rfl]
  norm_num

/-- C8: `collect_wrong_examples` filters to records whose prediction
differs from their label; if at most `max_examples` remain they are
returned unchanged in input order; otherwise a seeded sample of exactly
`max_examples` of them is drawn; the output never exceeds `max_examples`
elements, every output element comes from the filtered set, and the
result is a pure function of `(records, max_examples, seed)` — two calls
on the same input yield identical output. -/
theorem C8_collect_wrong_examples (records : List EvalRecord)
    (max_examples seed : Nat) :
    collect_wrong_examples records max_examples seed =
      collect_wrong_examples records max_examples seed ∧
    ((records.filter (fun r => !predictionMatches r)).length ≤
        max_examples →
      collect_wrong_examples records max_examples seed =
        records.filter (fun r => !predictionMatches r)) ∧
    ((records.filter (fun r => !predictionMatches r)).length >
        max_examples →
      (collect_wrong_examples records max_examples seed).length =
        max_examples) ∧
    (collect_wrong_examples records max_examples seed).length ≤
      max_examples ∧
    (∀ r, r ∈ collect_wrong_examples records max_examples seed →
      r ∈ records.filter (fun r => !predictionMatches r)) := by
  have hsample : (records.filter (fun r => !predictionMatches r)).length >
      max_examples →
      (collect_wrong_examples records max_examples seed).length =
        max_examples := by
    intro h
    rw [collect_wrong_examples]
    simp only [if_pos h]
    exact sampleGo_length max_examples _ _ (Nat.le_of_lt h)
  refine ⟨rfl, fun h => ?_, hsample, ?_, fun r hr => ?_⟩
  · rw [collect_wrong_examples]
    simp only [if_neg (Nat.not_lt.mpr h)]
  · rcases le_or_lt
      (records.filter (fun r => !predictionMatches r)).length
      max_examples with h | h
    · rw [collect_wrong_examples]
      simp only [if_neg (Nat.not_lt.mpr h)]
      exact h
    · rw [hsample h]
  · rw [collect_wrong_examples] at hr
    by_cases h : (records.filter (fun r => !predictionMatches r)).length >
        max_examples
    · rw [if_pos h] at hr
      exact sampleGo_subset max_examples _ _ r hr
    · rwa [if_neg h] at hr

/-- Witness for C8 at a concrete record list where the filtered set
exceeds `max_examples`. -/
theorem C8_collect_wrong_examples_witness :
    (collect_wrong_examples
      [⟨some true, false⟩, ⟨some false, true⟩, ⟨none, true⟩] 2 42).length =
      2 := by
  exact (C8_collect_wrong_examples
    [⟨some true, false⟩, ⟨some false, true⟩, ⟨none, true⟩] 2 42).2.2.1
    (by decide)

/-! ### Python dicts and the concurrent executors

`evaluate_records` (`iterative_revision.py`) deep-copies its input,
spawns one task per record, lets the tasks fill a `results` dict keyed by
record index in whatever order they complete, and finally writes
`prediction` / `prediction_reasoning` into record `i` from `results[i]`.
`run_all_tasks` (`eval.py`) pre-initialises `results = {i: (None, "")}`,
gathers task outcomes with `return_exceptions=True` (so `gather` returns
them in task order), and writes `records[i][model]` /
`records[i][model + "_reasoning"]`. -/

/-- Scalar Python values occurring in the JSONL records and in the fields
the executor writes. -/
inductive PyVal where
  | vNone
  | vBool (b : Bool)
  | vInt (n : Int)
  | vStr (s : PyStr)
deriving DecidableEq

/-- Python dicts are modelled as association lists; insertion order is
preserved and updating an existing key keeps its position, as CPython
does. -/
def dictLookup {K V : Type} [DecidableEq K] (d : List (K × V)) (k : K) :
    Option V :=
  match d with
  | [] => none
  | (k', v) :: rest => if k' = k then some v else dictLookup rest k

/-- Model of `d[k] = v` on a Python dict. -/
def dictSet {K V : Type} [DecidableEq K] (d : List (K × V)) (k : K)
    (v : V) : List (K × V) :=
  match d with
  | [] => [(k, v)]
  | (k', v') :: rest =>
    if k' = k then (k', v) :: rest else (k', v') :: dictSet rest k v

/-- Key list of a modelled dict, in insertion order. -/
def dictKeys {K V : Type} (d : List (K × V)) : List K := d.map Prod.fst

theorem dictLookup_dictSet_self {K V : Type} [DecidableEq K]
    (d : List (K × V)) (k : K) (v : V) :
    dictLookup (dictSet d k v) k = some v := by
  induction d with
  | nil => simp [dictSet, dictLookup]
  | cons p rest ih =>
    obtain ⟨k', v'⟩ := p
    by_cases h : k' = k
    · simp [dictSet, dictLookup, h]
    · simp [dictSet, dictLookup, h, ih]

theorem dictLookup_dictSet_other {K V : Type} [DecidableEq K]
    (d : List (K × V)) (k k' : K) (v : V) (h : k' ≠ k) :
    dictLookup (dictSet d k v) k' = dictLookup d k' := by
  induction d with
  | nil =>
    simp only [dictSet, dictLookup]
    rw [if_neg (fun hk => h hk.symm)]
  | cons p rest ih =>
    obtain ⟨k0, v0⟩ := p
    simp only [dictSet]
    by_cases h0 : k0 = k
    · rw [if_pos h0]
      subst h0
      simp only [dictLookup]
      rw [if_neg (fun hk => h hk.symm), if_neg (fun hk => h hk.symm)]
    · rw [if_neg h0]
      simp only [dictLookup]
      by_cases h1 : k0 = k'
      · rw [if_pos h1, if_pos h1]
      · rw [if_neg h1, if_neg h1, ih]

theorem dictKeys_dictSet_new {K V : Type} [DecidableEq K]
    (d : List (K × V)) (k : K) (v : V) (h : k ∉ dictKeys d) :
    dictKeys (dictSet d k v) = dictKeys d ++ [k] := by
  induction d with
  | nil => simp [dictSet, dictKeys]
  | cons p rest ih =>
    obtain ⟨k0, v0⟩ := p
    simp only [dictKeys, List.map_cons, List.mem_cons] at h
    push_neg at h
    simp only [dictSet]
    rw [if_neg (fun hk => h.1 hk.symm)]
    simp only [dictKeys, List.map_cons, List.cons_append, List.cons.injEq]
    refine ⟨trivial, ?_⟩
    have h2 : k ∉ dictKeys rest := by simpa [dictKeys] using h.2
    simpa [dictKeys] using ih h2

/-- Map with the element's index, starting at `start`. -/
def mapWithIdx {α β : Type} (f : Nat → α → β) : Nat → List α → List β
  | _, [] => []
  | i, x :: xs => f i x :: mapWithIdx f (i + 1) xs

theorem length_mapWithIdx {α β : Type} (f : Nat → α → β) :
    ∀ (l : List α) (start : Nat), (mapWithIdx f start l).length = l.length
  | [], _ => rfl
  | _ :: xs, start => by
    simp [mapWithIdx, length_mapWithIdx f xs (start + 1)]

theorem getElem?_mapWithIdx {α β : Type} (f : Nat → α → β) :
    ∀ (l : List α) (start i : Nat),
      (mapWithIdx f start l)[i]? = (l[i]?).map (f (start + i))
  | [], _, _ => by simp [mapWithIdx]
  | x :: xs, start, 0 => by simp [mapWithIdx]
  | x :: xs, start, i + 1 => by
    simp only [mapWithIdx, List.getElem?_cons_succ]
    rw [getElem?_mapWithIdx f xs (start + 1) i]
    have : start + 1 + i = start + (i + 1) := by omega
    rw [this]

/-- The per-task result, as stored into the shared `results` map:
verdict (possibly `None`) and reasoning string. -/
abbrev TaskResult := Option Bool × PyStr

/-- The `results` dict of `evaluate_records`, built by inserting
`results[idx] = outcome idx` once per task in the (arbitrary) order
`order` in which the concurrent tasks complete. -/
def buildResults (order : List Nat) (outcome : Nat → TaskResult) :
    List (Nat × TaskResult) :=
  order.foldl (fun d i => dictSet d i (outcome i)) []

theorem buildResults_foldl_sound (outcome : Nat → TaskResult) :
    ∀ (order : List Nat) (acc : List (Nat × TaskResult)),
      (∀ j v, dictLookup acc j = some v → v = outcome j) →
      ∀ j v, dictLookup (order.foldl (fun d i => dictSet d i (outcome i))
        acc) j = some v → v = outcome j := by
  intro order
  induction order with
  | nil => intro acc hacc; exact hacc
  | cons i rest ih =>
    intro acc hacc j v
    simp only [List.foldl_cons]
    refine ih _ (fun j' v' hj' => ?_) j v
    by_cases h : j' = i
    · subst h
      rw [dictLookup_dictSet_self] at hj'
      exact (Option.some_inj.mp hj').symm
    · rw [dictLookup_dictSet_other _ _ _ _ h] at hj'
      exact hacc j' v' hj'

theorem buildResults_foldl_mem (outcome : Nat → TaskResult) :
    ∀ (order : List Nat) (acc : List (Nat × TaskResult)) (i : Nat),
      i ∈ order ∨ (dictLookup acc i).isSome →
      (dictLookup (order.foldl (fun d j => dictSet d j (outcome j)) acc)
        i).isSome := by
  intro order
  induction order with
  | nil =>
    intro acc i hi
    rcases hi with h | h
    · simp at h
    · exact h
  | cons j rest ih =>
    intro acc i hi
    simp only [List.foldl_cons]
    refine ih _ i ?_
    by_cases h : i = j
    · subst h
      right
      rw [dictLookup_dictSet_self]
      rfl
    · rcases hi with hmem | hsome
      · rcases List.mem_cons.mp hmem with h' | h'
        · exact absurd h'.symm (fun hh => h hh.symm)
        · exact Or.inl h'
      · right
        rwa [dictLookup_dictSet_other _ _ _ _ h]

theorem dictLookup_buildResults (order : List Nat)
    (outcome : Nat → TaskResult) (i : Nat) (hi : i ∈ order) :
    dictLookup (buildResults order outcome) i = some (outcome i) := by
  have hsome := buildResults_foldl_mem outcome order [] i (Or.inl hi)
  rw [buildResults] at *
  match hv : dictLookup
      (order.foldl (fun d j => dictSet d j (outcome j)) []) i with
  | some v =>
    rw [buildResults_foldl_sound outcome order [] (by intro j v h; cases h)
      i v hv]
  | none => rw [hv] at hsome; cases hsome

/-- A record dict: field name to scalar value. -/
abbrev RecDict := List (String × PyVal)

/-- Python `None`-or-`bool` prediction as a `PyVal`. -/
def predVal : Option Bool → PyVal
  | none => PyVal.vNone
  | some b => PyVal.vBool b

/-- The write-back step of `evaluate_records`:
`records[i]["prediction"] = value; records[i]["prediction_reasoning"] =
reasoning`. -/
def augmentRecord (r : RecDict) (p : TaskResult) : RecDict :=
  dictSet (dictSet r "prediction" (predVal p.1)) "prediction_reasoning"
    (PyVal.vStr p.2)

/-- Model of `evaluate_records` in `iterative_revision.py`.  The input is
deep-copied by the original before any task runs, so the caller's list is
never mutated; here that is reflected by the function being a pure map of
the input.  `outcome i` is the final `(value, reasoning)` pair task `i`
stores into `results` (after its retry loop), and `order` is the order in
which the concurrent tasks complete and write into `results`.  The final
loop reads `results.get(i, (None, ""))` for `i in range(n)`. -/
def evaluate_records (records : List RecDict)
    (outcome : Nat → TaskResult) (order : List Nat) : List RecDict :=
  let results := buildResults order outcome
  mapWithIdx
    (fun i r => augmentRecord r ((dictLookup results i).getD (none, [])))
    0 records

/-- The write-back step of `run_all_tasks`:
`records[i][model_name] = value;
records[i][model_name + "_reasoning"] = reasoning`. -/
def augmentRecordModel (model_name : String) (r : RecDict)
    (p : TaskResult) : RecDict :=
  dictSet (dictSet r model_name (predVal p.1))
    (model_name ++ "_reasoning") (PyVal.vStr p.2)

/-- The `results` dict of `run_all_tasks` in `eval.py`: pre-initialised
to `(None, "")` for every index, then overwritten from the gathered task
outcomes.  `asyncio.gather` returns outcomes in task order regardless of
completion order, and an outcome of `none` models a task that raised
(kept as an exception by `return_exceptions=True`), which leaves the
pre-initialised entry in place. -/
def runAllResults (n : Nat) (outcome : Nat → Option TaskResult) :
    List (Nat × TaskResult) :=
  let init := (List.range n).map
    (fun i => (i, ((none : Option Bool), ([] : PyStr))))
  (List.range n).foldl
    (fun d i =>
      match outcome i with
      | some p => dictSet d i p
      | none => d)
    init

/-- Model of `run_all_tasks` in `eval.py` (result assembly). -/
def run_all_tasks (model_name : String) (records : List RecDict)
    (outcome : Nat → Option TaskResult) : List RecDict :=
  let results := runAllResults records.length outcome
  mapWithIdx
    (fun i r => augmentRecordModel model_name r
      ((dictLookup results i).getD (none, [])))
    0 records

theorem dictLookup_map_const {V : Type} (c : V) :
    ∀ (l : List Nat) (i : Nat), i ∈ l →
      dictLookup (l.map (fun j => (j, c))) i = some c := by
  intro l
  induction l with
  | nil => intro i hi; simp at hi
  | cons j rest ih =>
    intro i hi
    simp only [List.map_cons, dictLookup]
    by_cases h : j = i
    · rw [if_pos h]
    · rw [if_neg h]
      exact ih i (by rcases List.mem_cons.mp hi with h' | h'
                     · exact absurd h'.symm h
                     · exact h')

theorem runAllResults_foldl_lookup (outcome : Nat → Option TaskResult) :
    ∀ (l : List Nat) (acc : List (Nat × TaskResult)) (i : Nat),
      (dictLookup acc i = some ((outcome i).getD (none, [])) ∨
        (i ∈ l ∧ dictLookup acc i = some (none, []))) →
      dictLookup
        (l.foldl (fun d j =>
          match outcome j with
          | some p => dictSet d j p
          | none => d) acc) i =
        some ((outcome i).getD (none, [])) := by
  intro l
  induction l with
  | nil =>
    intro acc i hi
    rcases hi with h | h
    · exact h
    · simp at h
  | cons j rest ih =>
    intro acc i hi
    simp only [List.foldl_cons]
    by_cases hji : j = i
    · subst hji
      rcases hi with h | h
      · refine ih _ j (Or.inl ?_)
        match ho : outcome j with
        | some p => simp only [ho]; rw [dictLookup_dictSet_self]; simp [ho]
        | none => simp only [ho] at h ⊢; exact h
      · refine ih _ j (Or.inl ?_)
        match ho : outcome j with
        | some p => simp only [ho]; rw [dictLookup_dictSet_self]; simp [ho]
        | none => simp only [ho]; exact h.2
    · have hpres :
          dictLookup (match outcome j with
            | some p => dictSet acc j p
            | none => acc) i = dictLookup acc i := by
        match ho : outcome j with
        | some p =>
          simp only [ho]
          exact dictLookup_dictSet_other acc j i p
            (fun hk => hji hk.symm)
        | none => simp only [ho]
      rcases hi with h | h
      · exact ih _ i (Or.inl (by rw [hpres, h]))
      · refine ih _ i (Or.inr ⟨?_, by rw [hpres, h.2]⟩)
        rcases List.mem_cons.mp h.1 with h' | h'
        · exact absurd h'.symm hji
        · exact h'

theorem runAllResults_lookup (n : Nat) (outcome : Nat → Option TaskResult)
    (i : Nat) (hi : i < n) :
    dictLookup (runAllResults n outcome) i =
      some ((outcome i).getD (none, [])) := by
  rw [runAllResults]
  refine runAllResults_foldl_lookup outcome (List.range n) _ i
    (Or.inr ⟨List.mem_range.mpr hi, ?_⟩)
  exact dictLookup_map_const _ (List.range n) i (List.mem_range.mpr hi)

/-- C1: for every input record list and every completion order of the
concurrent per-record tasks, `evaluate_records` returns a list of the
same length as its input whose element `i` is input record `i` augmented
with the prediction and reasoning produced for record `i`
(aggregation is keyed by original index via the `results` map); likewise
`run_all_tasks`, whose `asyncio.gather` output is in task order, so its
assembly is independent of completion order by construction. -/
theorem C1_order_preservation (records : List RecDict)
    (outcome : Nat → TaskResult) (order : List Nat)
    (horder : ∀ i, i < records.length → i ∈ order)
    (model_name : String) (outcomeE : Nat → Option TaskResult) :
    (evaluate_records records outcome order).length = records.length ∧
    (∀ i r, records[i]? = some r →
      (evaluate_records records outcome order)[i]? =
        some (augmentRecord r (outcome i))) ∧
    (run_all_tasks model_name records outcomeE).length = records.length ∧
    (∀ i r, records[i]? = some r →
      (run_all_tasks model_name records outcomeE)[i]? =
        some (augmentRecordModel model_name r
          ((outcomeE i).getD (none, [])))) := by
  refine ⟨length_mapWithIdx _ records 0, fun i r hr => ?_,
    length_mapWithIdx _ records 0, fun i r hr => ?_⟩
  · have hi : i < records.length := by
      by_contra hcon
      rw [List.getElem?_eq_none (Nat.le_of_not_lt hcon)] at hr
      cases hr
    rw [evaluate_records]
    rw [getElem?_mapWithIdx _ records 0 i, hr]
    simp only [Option.map_some, Nat.zero_add]
    rw [dictLookup_buildResults order outcome i (horder i hi)]
    rfl
  · have hi : i < records.length := by
      by_contra hcon
      rw [List.getElem?_eq_none (Nat.le_of_not_lt hcon)] at hr
      cases hr
    rw [run_all_tasks]
    rw [getElem?_mapWithIdx _ records 0 i, hr]
    simp only [Option.map_some, Nat.zero_add]
    rw [runAllResults_lookup records.length outcomeE i hi]
    rfl

/-- Witness for C1: two records evaluated with completion order reversed
(task 1 finishes before task 0); the output still pairs index `i` with
record `i`'s outcome. -/
theorem C1_order_preservation_witness :
    (evaluate_records
      [[("label", PyVal.vBool true)], [("label", PyVal.vBool false)]]
      (fun i => (some (i == 0), ['r'])) [1, 0]).length = 2 ∧
    (evaluate_records
      [[("label", PyVal.vBool true)], [("label", PyVal.vBool false)]]
      (fun i => (some (i == 0), ['r'])) [1, 0])[0]? =
      some (augmentRecord [("label", PyVal.vBool true)]
        (some true, ['r'])) := by
  have h := C1_order_preservation
    [[("label", PyVal.vBool true)], [("label", PyVal.vBool false)]]
    (fun i => (some (i == 0), ['r'])) [1, 0]
    (by decide) "m" (fun _ => none)
  exact ⟨h.1, h.2.1 0 [("label", PyVal.vBool true)] rfl⟩

/-- C10: `evaluate_records` deep-copies its input before evaluating (the
original list and its dicts are left unchanged, reflected here by the
model being a pure function of its input), and element `i` of the result
is input record `i` with exactly the two keys `prediction` (a boolean or
null) and `prediction_reasoning` (a string) appended, every original
field preserved unchanged. -/
theorem C10_no_mutation_frame (records : List RecDict)
    (outcome : Nat → TaskResult) (order : List Nat)
    (horder : ∀ i, i < records.length → i ∈ order)
    (i : Nat) (r : RecDict) (hr : records[i]? = some r)
    (hp : "prediction" ∉ dictKeys r)
    (hpr : "prediction_reasoning" ∉ dictKeys r) :
    (evaluate_records records outcome order)[i]? =
      some (augmentRecord r (outcome i)) ∧
    dictKeys (augmentRecord r (outcome i)) =
      dictKeys r ++ ["prediction", "prediction_reasoning"] ∧
    (∀ k, k ≠ "prediction" → k ≠ "prediction_reasoning" →
      dictLookup (augmentRecord r (outcome i)) k = dictLookup r k) ∧
    dictLookup (augmentRecord r (outcome i)) "prediction" =
      some (predVal (outcome i).1) ∧
    dictLookup (augmentRecord r (outcome i)) "prediction_reasoning" =
      some (PyVal.vStr (outcome i).2) := by
  have hkeys1 : dictKeys (dictSet r "prediction" (predVal (outcome i).1)) =
      dictKeys r ++ ["prediction"] := dictKeys_dictSet_new r _ _ hp
  refine ⟨(C1_order_preservation records outcome order horder "m"
      (fun _ => none)).2.1 i r hr, ?_, fun k hk1 hk2 => ?_, ?_, ?_⟩
  · rw [augmentRecord, dictKeys_dictSet_new _ _ _ ?notin, hkeys1]
    · simp
    case notin =>
      rw [hkeys1]
      simp only [List.mem_append, List.mem_singleton]
      push_neg
      exact ⟨hpr, by decide⟩
  · rw [augmentRecord,
      dictLookup_dictSet_other _ _ _ _ hk2,
      dictLookup_dictSet_other _ _ _ _ hk1]
  · rw [augmentRecord,
      dictLookup_dictSet_other _ _ _ _ (by decide),
      dictLookup_dictSet_self]
  · rw [augmentRecord, dictLookup_dictSet_self]

/-- Witness for C10 at a concrete one-record list. -/
theorem C10_no_mutation_frame_witness :
    dictKeys (augmentRecord [("question", PyVal.vStr ['q'])]
      (some true, ['w'])) =
      ["question", "prediction", "prediction_reasoning"] ∧
    dictLookup (augmentRecord [("question", PyVal.vStr ['q'])]
      (some true, ['w'])) "question" = some (PyVal.vStr ['q']) := by
  have h := C10_no_mutation_frame [[("question", PyVal.vStr ['q'])]]
    (fun _ => (some true, ['w'])) [0] (by decide) 0
    [("question", PyVal.vStr ['q'])] rfl (by decide) (by decide)
  exact ⟨h.2.1, h.2.2.1 "question" (by decide) (by decide)⟩

/-! ### The concurrency gate

In both executors every remote generation call is made inside
`async with semaphore:` where `semaphore = asyncio.Semaphore(max_concurrent)`;
the inter-retry `asyncio.sleep` happens outside the gate.  The cooperative
scheduler is modelled as a transition system: each per-record task is
`idle` (about to start an attempt), `calling` (holding the gate with its
remote call outstanding), `sleeping` (awaiting `retry_delay`), or `done`.
Acquiring decrements the semaphore counter and is only enabled while the
counter is positive; leaving the `async with` block increments it. -/

/-- Phase of one per-record task. -/
inductive TaskPhase where
  | idle
  | calling
  | sleeping
  | done
deriving DecidableEq

/-- Scheduler state: the semaphore counter plus one phase per task. -/
structure SchedState where
  sem : Nat
  phases : List TaskPhase
deriving DecidableEq

/-- Number of simultaneously outstanding remote calls. -/
def countCalling (s : SchedState) : Nat :=
  s.phases.countP (fun p => p == TaskPhase.calling)

/-- Initial state: semaphore at `max_concurrent`, all `n` tasks idle. -/
def initState (maxC n : Nat) : SchedState :=
  ⟨maxC, List.replicate n TaskPhase.idle⟩

/-- One scheduler transition.  `acquire` models entering
`async with semaphore:` (enabled only while the counter is positive),
`release` models leaving it after the call returns, times out or raises
(moving to the retry sleep or finishing), `wake` models the end of
`asyncio.sleep(retry_delay)`. -/
inductive SchedStep : SchedState → SchedState → Prop where
  | acquire (s : SchedState) (i : Nat)
      (hidle : s.phases[i]? = some TaskPhase.idle) (hsem : 0 < s.sem) :
      SchedStep s ⟨s.sem - 1, s.phases.set i TaskPhase.calling⟩
  | release (s : SchedState) (i : Nat)
      (hcall : s.phases[i]? = some TaskPhase.calling) (next : TaskPhase)
      (hnext : next = TaskPhase.sleeping ∨ next = TaskPhase.done) :
      SchedStep s ⟨s.sem + 1, s.phases.set i next⟩
  | wake (s : SchedState) (i : Nat)
      (hslp : s.phases[i]? = some TaskPhase.sleeping) :
      SchedStep s ⟨s.sem, s.phases.set i TaskPhase.idle⟩

/-- States reachable from `initState maxC n` by scheduler transitions. -/
inductive SchedReachable (maxC n : Nat) : SchedState → Prop where
  | start : SchedReachable maxC n (initState maxC n)
  | step {s t : SchedState} : SchedReachable maxC n s → SchedStep s t →
      SchedReachable maxC n t

theorem countP_set {α : Type} (p : α → Bool) :
    ∀ (l : List α) (i : Nat) (x y : α), l[i]? = some y →
      (l.set i x).countP p + (if p y then 1 else 0) =
        l.countP p + (if p x then 1 else 0) := by
  intro l
  induction l with
  | nil => intro i x y hy; simp at hy
  | cons a rest ih =>
    intro i x y hy
    match i with
    | 0 =>
      simp only [List.getElem?_cons_zero, Option.some_inj] at hy
      subst hy
      simp only [List.set_cons_zero, List.countP_cons]
      omega
    | i + 1 =>
      simp only [List.getElem?_cons_succ] at hy
      simp only [List.set_cons_succ, List.countP_cons]
      have := ih i x y hy
      omega

theorem countP_replicate_idle (n : Nat) :
    (List.replicate n TaskPhase.idle).countP
      (fun p => p == TaskPhase.calling) = 0 := by
  induction n with
  | zero => rfl
  | succ m ih => simp [List.replicate_succ, List.countP_cons, ih]

/-- The semaphore invariant: outstanding calls plus the counter always
equal `max_concurrent`. -/
theorem sched_invariant (maxC n : Nat) (s : SchedState)
    (hs : SchedReachable maxC n s) : countCalling s + s.sem = maxC := by
  induction hs with
  | start =>
    simp [countCalling, initState, countP_replicate_idle]
  | step hr hstep ih =>
    rename_i s' t'
    cases hstep with
    | acquire i hidle hsem =>
      have hcnt := countP_set (fun p => p == TaskPhase.calling) s'.phases i
        TaskPhase.calling TaskPhase.idle hidle
      simp only [countCalling] at ih ⊢
      rw [if_neg (by decide : ¬((TaskPhase.idle == TaskPhase.calling) =
        true))] at hcnt
      rw [if_pos (by decide : (TaskPhase.calling == TaskPhase.calling) =
        true)] at hcnt
      omega
    | release i hcall next hnext =>
      have hcnt := countP_set (fun p => p == TaskPhase.calling) s'.phases i
        next TaskPhase.calling hcall
      simp only [countCalling] at ih ⊢
      rw [if_pos (by decide : (TaskPhase.calling == TaskPhase.calling) =
        true)] at hcnt
      have hnextne : ¬((next == TaskPhase.calling) = true) := by
        rcases hnext with h | h
        · subst h; decide
        · subst h; decide
      rw [if_neg hnextne] at hcnt
      omega
    | wake i hslp =>
      have hcnt := countP_set (fun p => p == TaskPhase.calling) s'.phases i
        TaskPhase.idle TaskPhase.sleeping hslp
      simp only [countCalling] at ih ⊢
      rw [if_neg (by decide : ¬((TaskPhase.sleeping == TaskPhase.calling) =
        true))] at hcnt
      rw [if_neg (by decide : ¬((TaskPhase.idle == TaskPhase.calling) =
        true))] at hcnt
      omega

/-- C9: in every state reachable under the cooperative scheduler —
whatever the record count `n` and interleaving — at most
`max_concurrent` remote calls are simultaneously outstanding, because
every call is issued inside the semaphore gate initialised to
`max_concurrent`. -/
theorem C9_concurrency_bound (maxC n : Nat) (s : SchedState)
    (hs : SchedReachable maxC n s) : countCalling s ≤ maxC := by
  have := sched_invariant maxC n s hs
  omega

/-- Witness for C9: with `max_concurrent = 2` and three tasks, after two
acquires the reachable state has two outstanding calls, within the
bound. -/
theorem C9_concurrency_bound_witness :
    countCalling
      ⟨0, [TaskPhase.calling, TaskPhase.calling, TaskPhase.idle]⟩ ≤ 2 := by
  have h0 : SchedReachable 2 3 (initState 2 3) := SchedReachable.start
  have h1 := SchedReachable.step h0
    (SchedStep.acquire (initState 2 3) 0 (by decide) (by decide))
  have h2 := SchedReachable.step h1
    (SchedStep.acquire
      ⟨1, [TaskPhase.calling, TaskPhase.idle, TaskPhase.idle]⟩ 1
      (by decide) (by decide))
  exact C9_concurrency_bound 2 3 _ h2

/-! ### The iteration orchestrator

`async_main` in `iterative_revision.py` runs
`for iteration in range(args.iterations + 1)`: evaluate the train set,
append its accuracy, evaluate the test set, append its accuracy; then,
unless this is the last configured iteration, collect the wrong-example
sample and either revise the soul doc, or — when the sample is empty —
pad both accuracy series with the current round's values for all
remaining iterations and break.  The remote evaluations and the revision
are abstracted into an environment: what each round's evaluation returns
may depend on the round index and on the current soul document. -/

/-- Environment of one orchestrator run: the initial soul document, the
per-round train/test evaluation results as a function of round index and
current document, the revision step (current document, wrong sample,
train results → new document), and the sampling parameters. -/
structure RevisionEnv (Doc : Type) where
  initial : Doc
  evalTrain : Nat → Doc → List EvalRecord
  evalTest : Nat → Doc → List EvalRecord
  revise : Doc → List EvalRecord → List EvalRecord → Doc
  max_wrong : Nat
  seed : Nat

/-- The orchestrator round loop of `async_main`: `k` is the current
iteration index, `fuel` the number of remaining loop iterations
(`total_iterations - k`).  Returns the train- and test-accuracy series
accumulated from round `k` on. -/
def revisionGo {Doc : Type} (env : RevisionEnv Doc) :
    Doc → Nat → Nat → List ℚ × List ℚ
  | _, _, 0 => ([], [])
  | doc, k, fuel + 1 =>
    let trainRes := env.evalTrain k doc
    let ta := compute_accuracy trainRes
    let te := compute_accuracy (env.evalTest k doc)
    if fuel = 0 then ([ta], [te])
    else
      let wrong := collect_wrong_examples trainRes env.max_wrong env.seed
      if wrong.isEmpty then
        (ta :: List.replicate fuel ta, te :: List.replicate fuel te)
      else
        let t := revisionGo env (env.revise doc wrong trainRes) (k + 1) fuel
        (ta :: t.1, te :: t.2)

/-- The accuracy series produced by a run of `async_main` with
`args.iterations = iterations`. -/
def async_main_accuracies {Doc : Type} (env : RevisionEnv Doc)
    (iterations : Nat) : List ℚ × List ℚ :=
  revisionGo env env.initial 0 (iterations + 1)

/-- The soul document current at the start of round `k` (when the run
reaches round `k`; once the wrong sample is empty the loop breaks and the
document freezes). -/
def docAt {Doc : Type} (env : RevisionEnv Doc) : Nat → Doc
  | 0 => env.initial
  | k + 1 =>
    let doc := docAt env k
    let trainRes := env.evalTrain k doc
    let wrong := collect_wrong_examples trainRes env.max_wrong env.seed
    if wrong.isEmpty then doc else env.revise doc wrong trainRes

/-- The wrong-example sample of round `k`. -/
def wrongAt {Doc : Type} (env : RevisionEnv Doc) (k : Nat) :
    List EvalRecord :=
  collect_wrong_examples (env.evalTrain k (docAt env k)) env.max_wrong
    env.seed

/-- Train accuracy of round `k`. -/
def trainAccAt {Doc : Type} (env : RevisionEnv Doc) (k : Nat) : ℚ :=
  compute_accuracy (env.evalTrain k (docAt env k))

/-- Test accuracy of round `k`. -/
def testAccAt {Doc : Type} (env : RevisionEnv Doc) (k : Nat) : ℚ :=
  compute_accuracy (env.evalTest k (docAt env k))

theorem revisionGo_length {Doc : Type} (env : RevisionEnv Doc) :
    ∀ (fuel : Nat) (doc : Doc) (k : Nat),
      (revisionGo env doc k fuel).1.length = fuel ∧
      (revisionGo env doc k fuel).2.length = fuel := by
  intro fuel
  induction fuel with
  | zero => intro doc k; exact ⟨rfl, rfl⟩
  | succ m ih =>
    intro doc k
    by_cases hm : m = 0
    · subst hm
      simp [revisionGo]
    · simp only [revisionGo, if_neg hm]
      by_cases hw : (collect_wrong_examples (env.evalTrain k doc)
          env.max_wrong env.seed).isEmpty
      · rw [if_pos hw]
        simp
      · rw [if_neg hw]
        have := ih (env.revise doc (collect_wrong_examples
          (env.evalTrain k doc) env.max_wrong env.seed)
          (env.evalTrain k doc)) (k + 1)
        simp only [List.length_cons]
        omega

theorem revisionGo_padding {Doc : Type} (env : RevisionEnv Doc) :
    ∀ (k i fuel : Nat), k + 2 ≤ fuel →
      (∀ j, j < k → ¬(wrongAt env (i + j)).isEmpty) →
      (wrongAt env (i + k)).isEmpty →
      ∀ j, k ≤ j → j < fuel →
        (revisionGo env (docAt env i) i fuel).1[j]? =
          some (trainAccAt env (i + k)) ∧
        (revisionGo env (docAt env i) i fuel).2[j]? =
          some (testAccAt env (i + k)) := by
  intro k
  induction k with
  | zero =>
    intro i fuel hfuel _ hempty j hkj hjf
    match fuel, hfuel with
    | fuel + 1, hfuel =>
      have hfz : fuel ≠ 0 := by omega
      have hw : (collect_wrong_examples (env.evalTrain i (docAt env i))
          env.max_wrong env.seed).isEmpty := by
        simpa [wrongAt] using hempty
      simp only [revisionGo, if_neg hfz, if_pos hw]
      match j with
      | 0 =>
        constructor
        · simp [trainAccAt]
        · simp [testAccAt]
      | j + 1 =>
        have hj : j < fuel := by omega
        constructor
        · simp only [List.getElem?_cons_succ]
          rw [List.getElem?_replicate]
          rw [if_pos hj]
          rfl
        · simp only [List.getElem?_cons_succ]
          rw [List.getElem?_replicate]
          rw [if_pos hj]
          rfl
  | succ m ih =>
    intro i fuel hfuel hfirst hempty j hkj hjf
    match fuel, hfuel with
    | fuel + 1, hfuel =>
      have hfz : fuel ≠ 0 := by omega
      have hw : ¬(collect_wrong_examples (env.evalTrain i (docAt env i))
          env.max_wrong env.seed).isEmpty := by
        have := hfirst 0 (Nat.succ_pos m)
        simpa [wrongAt] using this
      simp only [revisionGo, if_neg hfz, if_neg hw]
      have hdoc : env.revise (docAt env i)
          (collect_wrong_examples (env.evalTrain i (docAt env i))
            env.max_wrong env.seed)
          (env.evalTrain i (docAt env i)) = docAt env (i + 1) := by
        simp only [docAt]
        rw [if_neg hw]
      have hfirst' : ∀ j', j' < m → ¬(wrongAt env (i + 1 + j')).isEmpty := by
        intro j' hj'
        have : i + 1 + j' = i + (j' + 1) := by omega
        rw [this]
        exact hfirst (j' + 1) (by omega)
      have hempty' : (wrongAt env (i + 1 + m)).isEmpty := by
        have : i + 1 + m = i + (m + 1) := by omega
        rw [this]; exact hempty
      match j, hkj with
      | j + 1, hkj =>
        have := ih (i + 1) fuel (by omega) hfirst' hempty'
          j (by omega) (by omega)
        rw [hdoc] at *
        have heq : i + 1 + m = i + (m + 1) := by omega
        rw [heq] at this
        exact ⟨by simpa using this.1, by simpa using this.2⟩

/-- C6: the train- and test-accuracy series of a run always have exactly
`iterations + 1` entries, whether or not early termination occurs; and if
round `k` (the first round whose training wrong-example sample is empty)
occurs before the last configured revision, the orchestrator stops
revising and replicates round `k`'s train and test accuracies for every
remaining round. -/
theorem C6_early_stop_padding {Doc : Type} (env : RevisionEnv Doc)
    (iterations : Nat) :
    ((async_main_accuracies env iterations).1.length = iterations + 1 ∧
      (async_main_accuracies env iterations).2.length = iterations + 1) ∧
    (∀ k, k < iterations →
      (∀ j, j < k → ¬(wrongAt env j).isEmpty) →
      (wrongAt env k).isEmpty →
      ∀ j, k ≤ j → j ≤ iterations →
        (async_main_accuracies env iterations).1[j]? =
          some (trainAccAt env k) ∧
        (async_main_accuracies env iterations).2[j]? =
          some (testAccAt env k)) := by
  constructor
  · exact revisionGo_length env (iterations + 1) env.initial 0
  · intro k hk hfirst hempty j hkj hji
    have h := revisionGo_padding env k 0 (iterations + 1) (by omega)
      (by intro j' hj'; simpa using hfirst j' hj')
      (by simpa using hempty) j hkj (by omega)
    rw [show docAt env 0 = env.initial from rfl] at h
    simp only [Nat.zero_add] at h
    exact h

/-- Concrete orchestrator environment exercising the early stop: round 0
has one wrong example, every later round has none. -/
def earlyStopEnv : RevisionEnv Nat where
  initial := 0
  evalTrain := fun k _ =>
    if k = 0 then [⟨some true, false⟩] else [⟨some true, true⟩]
  evalTest := fun _ _ => [⟨some true, true⟩]
  revise := fun d _ _ => d + 1
  max_wrong := 30
  seed := 42

/-- Witness for C6: with `iterations = 3` and zero wrong examples first
arising in round 1, the series has length 4 and rounds 2 and 3 replicate
round 1's values. -/
theorem C6_early_stop_padding_witness :
    (async_main_accuracies earlyStopEnv 3).1.length = 3 + 1 ∧
    (async_main_accuracies earlyStopEnv 3).1[2]? =
      some (trainAccAt earlyStopEnv 1) ∧
    (async_main_accuracies earlyStopEnv 3).1[3]? =
      some (trainAccAt earlyStopEnv 1) ∧
    (async_main_accuracies earlyStopEnv 3).2[2]? =
      some (testAccAt earlyStopEnv 1) := by
  have h := C6_early_stop_padding earlyStopEnv 3
  refine ⟨h.1.1, ?_, ?_, ?_⟩
  · exact (h.2 1 (by decide)
      (by intro j hj
          have hj0 : j = 0 := by omega
          subst hj0
          decide)
      (by decide) 2 (by decide) (by decide)).1
  · exact (h.2 1 (by decide)
      (by intro j hj
          have hj0 : j = 0 := by omega
          subst hj0
          decide)
      (by decide) 3 (by decide) (by decide)).1
  · exact (h.2 1 (by decide)
      (by intro j hj
          have hj0 : j = 0 := by omega
          subst hj0
          decide)
      (by decide) 2 (by decide) (by decide)).2

/-! ### A model of `json.loads`

The response parsers call Python's `json.loads`, which is modelled here
by an executable JSON parser over `List Char`: objects, arrays, strings
with escapes, numbers (as `mantissa * 10 ^ exponent`), `true`, `false`,
`null`, and Python's `NaN` / `Infinity` / `-Infinity` extensions, with
the four JSON whitespace characters and a trailing-data check, as in
CPython's decoder.  Recursion is by fuel; the entry point supplies
`4 * length + 16`, ample because every parsing step consumes input. -/

/-- JSON values as returned by `json.loads` (`jnum m e` stands for the
number `m * 10 ^ e`; Python floats are not distinguished from ints here).
-/
inductive JValue where
  | jnull
  | jbool (b : Bool)
  | jnum (m : Int) (e : Int)
  | jnan
  | jinf (neg : Bool)
  | jstr (s : PyStr)
  | jarr (xs : List JValue)
  | jobj (kvs : List (PyStr × JValue))

/-- The four JSON whitespace characters of `json`'s decoder. -/
def jsonWs (c : Char) : Bool :=
  c = ' ' || c = '\t' || c = '\n' || c = '\r'

/-- Whitespace for Python's `str.strip` (ASCII fragment). -/
def isPySpace (c : Char) : Bool :=
  c = ' ' || c = '\t' || c = '\n' || c = '\r' || c = '\x0b' || c = '\x0c'

/-- Value of a decimal digit string. -/
def digitsToNat (ds : List Char) : Nat :=
  ds.foldl (fun acc c => acc * 10 + (c.toNat - 48)) 0

/-- Single-character JSON string escapes. -/
def escChar (e : Char) : Option Char :=
  if e = '"' then some '"'
  else if e = '\\' then some '\\'
  else if e = '/' then some '/'
  else if e = 'b' then some '\x08'
  else if e = 'f' then some '\x0c'
  else if e = 'n' then some '\n'
  else if e = 'r' then some '\r'
  else if e = 't' then some '\t'
  else none

/-- Hexadecimal digit value. -/
def hexVal (c : Char) : Option Nat :=
  if c.isDigit then some (c.toNat - 48)
  else if 'a' ≤ c && c ≤ 'f' then some (c.toNat - 87)
  else if 'A' ≤ c && c ≤ 'F' then some (c.toNat - 55)
  else none

/-- JSON string body parser (input starts after the opening quote;
returns the decoded content and the remainder after the closing quote).
Raw control characters are rejected, as in strict-mode `json.loads`. -/
def parseJStr : Nat → PyStr → Option (PyStr × PyStr)
  | 0, _ => none
  | fuel + 1, cs =>
    match cs with
    | [] => none
    | '"' :: rest => some ([], rest)
    | '\\' :: rest =>
      match rest with
      | [] => none
      | 'u' :: rest2 =>
        match rest2 with
        | h1 :: h2 :: h3 :: h4 :: rest3 =>
          match hexVal h1, hexVal h2, hexVal h3, hexVal h4 with
          | some a, some b, some c, some d =>
            (parseJStr fuel rest3).map
              (fun p =>
                (Char.ofNat (((a * 16 + b) * 16 + c) * 16 + d) :: p.1,
                  p.2))
          | _, _, _, _ => none
        | _ => none
      | e :: rest2 =>
        match escChar e with
        | some c2 => (parseJStr fuel rest2).map (fun p => (c2 :: p.1, p.2))
        | none => none
    | c :: rest =>
      if c.toNat < 32 then none
      else (parseJStr fuel rest).map (fun p => (c :: p.1, p.2))

/-- JSON integer part: `0` or a nonzero digit followed by digits. -/
def parseIntDigits (cs : PyStr) : Option (List Char × PyStr) :=
  match cs with
  | [] => none
  | c :: rest =>
    if c = '0' then some (['0'], rest)
    else if c.isDigit then
      some (c :: rest.takeWhile Char.isDigit, rest.dropWhile Char.isDigit)
    else none

/-- JSON fraction part: `.` followed by one or more digits, or nothing. -/
def parseFrac (cs : PyStr) : Option (List Char × PyStr) :=
  match cs with
  | '.' :: rest =>
    let ds := rest.takeWhile Char.isDigit
    if ds.isEmpty then none else some (ds, rest.dropWhile Char.isDigit)
  | _ => some ([], cs)

/-- JSON exponent part: `e`/`E`, optional sign, one or more digits, or
nothing. -/
def parseExp (cs : PyStr) : Option (Int × PyStr) :=
  match cs with
  | [] => some (0, [])
  | c :: rest =>
    if c = 'e' || c = 'E' then
      match rest with
      | '+' :: r2 =>
        let ds := r2.takeWhile Char.isDigit
        if ds.isEmpty then none
        else some ((digitsToNat ds : Int), r2.dropWhile Char.isDigit)
      | '-' :: r2 =>
        let ds := r2.takeWhile Char.isDigit
        if ds.isEmpty then none
        else some (-(digitsToNat ds : Int), r2.dropWhile Char.isDigit)
      | _ =>
        let ds := rest.takeWhile Char.isDigit
        if ds.isEmpty then none
        else some ((digitsToNat ds : Int), rest.dropWhile Char.isDigit)
    else some (0, cs)

/-- JSON number parser: optional sign, integer part, optional fraction
and exponent; the value is returned as `(mantissa, power of ten)`. -/
def parseJNum (cs : PyStr) : Option ((Int × Int) × PyStr) :=
  let signed := match cs with
    | '-' :: r => (true, r)
    | _ => (false, cs)
  match parseIntDigits signed.2 with
  | none => none
  | some (ids, cs2) =>
    match parseFrac cs2 with
    | none => none
    | some (fds, cs3) =>
      match parseExp cs3 with
      | none => none
      | some (ex, cs4) =>
        let m0 : Int := (digitsToNat (ids ++ fds) : Int)
        some ((if signed.1 then -m0 else m0, ex - (fds.length : Int)), cs4)

mutual

/-- JSON value parser (fuel-indexed). -/
def parseVal : Nat → PyStr → Option (JValue × PyStr)
  | 0, _ => none
  | fuel + 1, cs =>
    match cs.dropWhile jsonWs with
    | [] => none
    | c :: rest =>
      if c = '{' then
        match rest.dropWhile jsonWs with
        | '}' :: r2 => some (JValue.jobj [], r2)
        | _ =>
          match parseMembers fuel rest with
          | some (kvs, r2) => some (JValue.jobj kvs, r2)
          | none => none
      else if c = '[' then
        match rest.dropWhile jsonWs with
        | ']' :: r2 => some (JValue.jarr [], r2)
        | _ =>
          match parseElems fuel rest with
          | some (vs, r2) => some (JValue.jarr vs, r2)
          | none => none
      else if c = '"' then
        match parseJStr (rest.length + 1) rest with
        | some (s, r2) => some (JValue.jstr s, r2)
        | none => none
      else if c = 't' then
        match rest with
        | 'r' :: 'u' :: 'e' :: r2 => some (JValue.jbool true, r2)
        | _ => none
      else if c = 'f' then
        match rest with
        | 'a' :: 'l' :: 's' :: 'e' :: r2 => some (JValue.jbool false, r2)
        | _ => none
      else if c = 'n' then
        match rest with
        | 'u' :: 'l' :: 'l' :: r2 => some (JValue.jnull, r2)
        | _ => none
      else if c = 'N' then
        match rest with
        | 'a' :: 'N' :: r2 => some (JValue.jnan, r2)
        | _ => none
      else if c = 'I' then
        match rest with
        | 'n' :: 'f' :: 'i' :: 'n' :: 'i' :: 't' :: 'y' :: r2 =>
          some (JValue.jinf false, r2)
        | _ => none
      else if c = '-' then
        match rest with
        | 'I' :: 'n' :: 'f' :: 'i' :: 'n' :: 'i' :: 't' :: 'y' :: r2 =>
          some (JValue.jinf true, r2)
        | _ =>
          match parseJNum (c :: rest) with
          | some (me, r2) => some (JValue.jnum me.1 me.2, r2)
          | none => none
      else if c.isDigit then
        match parseJNum (c :: rest) with
        | some (me, r2) => some (JValue.jnum me.1 me.2, r2)
        | none => none
      else none

/-- JSON object members parser (input after the opening brace). -/
def parseMembers : Nat → PyStr → Option (List (PyStr × JValue) × PyStr)
  | 0, _ => none
  | fuel + 1, cs =>
    match cs.dropWhile jsonWs with
    | '"' :: rest =>
      match parseJStr (rest.length + 1) rest with
      | none => none
      | some (key, rest2) =>
        match rest2.dropWhile jsonWs with
        | ':' :: rest3 =>
          match parseVal fuel rest3 with
          | none => none
          | some (v, rest4) =>
            match rest4.dropWhile jsonWs with
            | ',' :: rest5 =>
              match parseMembers fuel rest5 with
              | none => none
              | some (kvs, rest6) => some ((key, v) :: kvs, rest6)
            | '}' :: rest5 => some ([(key, v)], rest5)
            | _ => none
        | _ => none
    | _ => none

/-- JSON array elements parser (input after the opening bracket). -/
def parseElems : Nat → PyStr → Option (List JValue × PyStr)
  | 0, _ => none
  | fuel + 1, cs =>
    match parseVal fuel cs with
    | none => none
    | some (v, rest) =>
      match rest.dropWhile jsonWs with
      | ',' :: rest2 =>
        match parseElems fuel rest2 with
        | none => none
        | some (vs, rest3) => some (v :: vs, rest3)
      | ']' :: rest2 => some ([v], rest2)
      | _ => none

end

/-- Model of `json.loads`: parse one value, then require only whitespace
to the end of input, else fail (a `JSONDecodeError` in Python is `none`
here). -/
def pyLoads (cs : PyStr) : Option JValue :=
  match parseVal (4 * cs.length + 16) cs with
  | some (v, rest) =>
    if (rest.dropWhile jsonWs).isEmpty then some v else none
  | none => none

/-- Dict lookup on a parsed JSON object: CPython keeps the last value
bound to a duplicated key. -/
def objGet (kvs : List (PyStr × JValue)) (k : PyStr) : Option JValue :=
  match kvs with
  | [] => none
  | (k', v) :: rest =>
    match objGet rest k with
    | some r => some r
    | none => if k' = k then some v else none

/-- Python truthiness of a JSON-loaded value (`bool(x)`). -/
def pyTruthy : JValue → Bool
  | JValue.jnull => false
  | JValue.jbool b => b
  | JValue.jnum m _ => m != 0
  | JValue.jnan => true
  | JValue.jinf _ => true
  | JValue.jstr s => !s.isEmpty
  | JValue.jarr xs => !xs.isEmpty
  | JValue.jobj kvs => !kvs.isEmpty

/-! ### Python string helpers -/

/-- Python `str.lstrip()`. -/
def pyLStrip (s : PyStr) : PyStr := s.dropWhile isPySpace

/-- Drop trailing Python whitespace. -/
def dropTrailingWs (s : PyStr) : PyStr :=
  (s.reverse.dropWhile isPySpace).reverse

/-- Python `str.strip()`. -/
def pyStrip (s : PyStr) : PyStr := dropTrailingWs (s.dropWhile isPySpace)

/-- Python `str.lower()` (ASCII fragment). -/
def pyLower (s : PyStr) : PyStr := s.map Char.toLower

/-- Split a string at the first occurrence of `pat`, returning the text
before it and the text after it (Python `s.find(pat)` plus slicing);
`none` when `pat` does not occur. -/
def splitOnFirst (pat : PyStr) : PyStr → Option (PyStr × PyStr)
  | [] => if pat.isPrefixOf [] then some ([], []) else none
  | c :: rest =>
    if pat.isPrefixOf (c :: rest) then some ([], (c :: rest).drop pat.length)
    else (splitOnFirst pat rest).map (fun p => (c :: p.1, p.2))

/-- Python `pat in s`. -/
def hasSubstr (pat s : PyStr) : Bool := (splitOnFirst pat s).isSome

/-- The Python exceptions the parsers can raise or propagate. -/
inductive PyErr where
  | attributeError
  | typeError
  | valueError
  | runtimeError
deriving DecidableEq

/-! ### The verdict parser `parse_judgement_reasoning`

Shared between `iterative_revision.py` and `eval.py`.  It strips the
text, removes one markdown code fence by `find`-based slicing, then runs
`json.loads` inside `try: ... except (json.JSONDecodeError, TypeError)`.
`data.get("judgement")` is only valid when `data` is a dict; any other
JSON value raises an uncaught `AttributeError`, as does
`(value or "").strip()` when the field holds a truthy non-string. -/

/-- The `if "```" in text:` fence pre-strip of
`parse_judgement_reasoning`. -/
def stripMdFence (text : PyStr) : PyStr :=
  match splitOnFirst "```".data text with
  | none => text
  | some (_, rest0) =>
    let rest := if "json".data.isPrefixOf rest0
      then pyLStrip (rest0.drop 4) else rest0
    match splitOnFirst "```".data rest with
    | some (mid, _) => pyStrip mid
    | none => rest

/-- Python `(value or "")` on an optional JSON field followed by a string
operation: yields the string when the value is a string or falsy (absent
and `None` give `""`), and `none` when the operation would raise
`AttributeError` on a truthy non-string. -/
def strOrEmpty (x : Option JValue) : Option PyStr :=
  let raw := x.getD JValue.jnull
  match (if pyTruthy raw then raw else JValue.jstr []) with
  | JValue.jstr s => some s
  | _ => none

/-- Text preparation of `parse_judgement_reasoning`:
`text = (text or "").strip()` followed by the fence pre-strip. -/
def judgementPreprocess (text : PyStr) : PyStr :=
  let t0 := pyStrip text
  if hasSubstr "```".data t0 then stripMdFence t0 else t0

/-- Model of `parse_judgement_reasoning`: returns
`Except.ok (verdict, reasoning)` where the parser returns normally, and
`Except.error` where the Python code raises an uncaught exception. -/
def parse_judgement_reasoning (text : PyStr) :
    Except PyErr (Option Bool × PyStr) :=
  match pyLoads (judgementPreprocess text) with
  | none => Except.ok (none, [])
  | some (JValue.jobj kvs) =>
    match strOrEmpty (objGet kvs "judgement".data) with
    | none => Except.error PyErr.attributeError
    | some js =>
      match strOrEmpty (objGet kvs "reasoning".data) with
      | none => Except.error PyErr.attributeError
      | some rs =>
        let judgement := pyLower (pyStrip js)
        let reasoning := pyStrip rs
        if judgement = "agree".data then Except.ok (some true, reasoning)
        else if judgement = "disagree".data then
          Except.ok (some false, reasoning)
        else Except.ok (none, [])
  | some _ => Except.error PyErr.attributeError

/-- Discriminator for JSON objects. -/
def isJObj : JValue → Bool
  | JValue.jobj _ => true
  | _ => false

/-- C4: the claim as frozen states that `parse_judgement_reasoning`
never raises for any input.  It does raise: the input `"[1, 2]"` is
valid JSON whose value is a list, so `data.get("judgement")` raises an
uncaught `AttributeError` (only `json.JSONDecodeError` and `TypeError`
are caught). -/
theorem C4_counterexample :
    parse_judgement_reasoning "[1, 2]".data =
      Except.error PyErr.attributeError := rfl

/-- C4 (amended): for every input whose prepared text is not valid JSON
— non-JSON text, truncated JSON — the parser returns the sentinel
`(None, "")` without raising; for every JSON object whose `judgement`
and `reasoning` fields are strings or absent/falsy, only
`"agree"`/`"disagree"` (after strip and lower) map to `True`/`False`,
any other judgement yields the sentinel, and a missing `reasoning`
defaults to the empty string; but a JSON object with a truthy
non-string `judgement` or `reasoning`, or a top-level JSON value that
is not an object, raises an uncaught `AttributeError`. -/
theorem C4_parser_robustness (text : PyStr) :
    (pyLoads (judgementPreprocess text) = none →
      parse_judgement_reasoning text = Except.ok (none, [])) ∧
    (∀ kvs js rs,
      pyLoads (judgementPreprocess text) = some (JValue.jobj kvs) →
      strOrEmpty (objGet kvs "judgement".data) = some js →
      strOrEmpty (objGet kvs "reasoning".data) = some rs →
      ((pyLower (pyStrip js) = "agree".data →
        parse_judgement_reasoning text =
          Except.ok (some true, pyStrip rs)) ∧
       (pyLower (pyStrip js) = "disagree".data →
        parse_judgement_reasoning text =
          Except.ok (some false, pyStrip rs)) ∧
       (pyLower (pyStrip js) ≠ "agree".data →
        pyLower (pyStrip js) ≠ "disagree".data →
        parse_judgement_reasoning text = Except.ok (none, [])))) ∧
    strOrEmpty (none : Option JValue) = some [] ∧
    (∀ kvs,
      pyLoads (judgementPreprocess text) = some (JValue.jobj kvs) →
      strOrEmpty (objGet kvs "judgement".data) = none →
      parse_judgement_reasoning text = Except.error PyErr.attributeError) ∧
    (∀ v, pyLoads (judgementPreprocess text) = some v → isJObj v = false →
      parse_judgement_reasoning text = Except.error PyErr.attributeError)
    := by
  refine ⟨fun h => ?_, fun kvs js rs hl hj hr => ⟨fun ha => ?_,
    fun hd => ?_, fun hna hnd => ?_⟩, rfl, fun kvs hl hj => ?_,
    fun v hl hno => ?_⟩
  · rw [parse_judgement_reasoning, h]
  · rw [parse_judgement_reasoning, hl]
    simp only [hj, hr]
    rw [if_pos ha]
  · rw [parse_judgement_reasoning, hl]
    simp only [hj, hr]
    rw [if_neg (by rw [hd]; decide), if_pos hd]
  · rw [parse_judgement_reasoning, hl]
    simp only [hj, hr]
    rw [if_neg hna, if_neg hnd]
  · rw [parse_judgement_reasoning, hl]
    simp only [hj]
  · rw [parse_judgement_reasoning, hl]
    match v, hno with
    | JValue.jnull, _ => rfl
    | JValue.jbool b, _ => rfl
    | JValue.jnum m e, _ => rfl
    | JValue.jnan, _ => rfl
    | JValue.jinf b, _ => rfl
    | JValue.jstr s, _ => rfl
    | JValue.jarr xs, _ => rfl

/-- Witness for C4's amended theorem at concrete inputs: a non-JSON
reply, a valid verdict object, and a JSON array. -/
theorem C4_parser_robustness_witness :
    parse_judgement_reasoning "oops, no json".data = Except.ok (none, []) ∧
    parse_judgement_reasoning
      "\x7b\"judgement\": \"Agree\", \"reasoning\": \"y\"\x7d".data =
      Except.ok (some true, ['y']) ∧
    parse_judgement_reasoning "3".data =
      Except.error PyErr.attributeError := by
  refine ⟨(C4_parser_robustness "oops, no json".data).1 rfl, ?_, ?_⟩
  · exact ((C4_parser_robustness
      "\x7b\"judgement\": \"Agree\", \"reasoning\": \"y\"\x7d".data).2.1
      [("judgement".data, JValue.jstr "Agree".data),
        ("reasoning".data, JValue.jstr ['y'])]
      "Agree".data ['y'] rfl rfl rfl).1 rfl
  · exact (C4_parser_robustness "3".data).2.2.2.2 (JValue.jnum 3 0) rfl
      rfl

/-! ### The JSON response parser `parse_json_response`

Used on the soul-doc generation/revision path.  It strips the text,
removes `<think>...</think>` blocks (`re.sub`, non-greedy, DOTALL),
strips again, then resolves JSON in order: (a) the whole text; (b) the
content of a markdown code fence
(`re.search(r"` ```(?:json)?\s*\n(.*?)``` `", ...)`); (c) the substring
between the first `\x7b` and the last `\x7d`; otherwise it raises
`ValueError`. -/

/-- One pass of `re.sub(r"<think>.*?</think>", "", text, DOTALL)`: each
match runs from a `<think>` to the earliest following `</think>`, and
scanning resumes after the removed match, exactly as `re.sub` replaces
the non-overlapping matches of one left-to-right scan. -/
def stripThinkGo : Nat → PyStr → PyStr
  | 0, cs => cs
  | f + 1, cs =>
    match splitOnFirst "<think>".data cs with
    | none => cs
    | some (before, afterOpen) =>
      match splitOnFirst "</think>".data afterOpen with
      | none => cs
      | some (_, afterClose) => before ++ stripThinkGo f afterClose

/-- Removal of `<think>...</think>` blocks. -/
def stripThink (cs : PyStr) : PyStr := stripThinkGo cs.length cs

/-- Attempt to match `` ```(?:json)?\s*\n(.*?)``` `` just after a
`` ``` `` occurrence: optionally consume `json`; then `\s*\n` consumes
the leading whitespace run up to and including its last newline (the
greedy `\s*` backtracks to leave one `\n`; if the run has no newline the
optional `json` cannot help, since `j` is not `\n`); then the non-greedy
group runs to the earliest closing `` ``` ``. -/
def fenceMatchAt (afterFence : PyStr) : Option PyStr :=
  let r1 := if "json".data.isPrefixOf afterFence
    then afterFence.drop 4 else afterFence
  let wsrun := r1.takeWhile isPySpace
  match (wsrun.reverse.findIdx? (fun c => c = '\n')).map
      (fun i => wsrun.length - 1 - i) with
  | none => none
  | some idx =>
    match splitOnFirst "```".data (r1.drop (idx + 1)) with
    | some (content, _) => some content
    | none => none

/-- Leftmost `re.search` of the fence pattern: try every `` ``` ``
occurrence in order; the first position where the rest of the pattern
also matches wins. -/
def fenceSearch : Nat → PyStr → Option PyStr
  | 0, _ => none
  | f + 1, cs =>
    match cs with
    | [] => none
    | _ :: rest =>
      if "```".data.isPrefixOf cs then
        match fenceMatchAt (cs.drop 3) with
        | some content => some content
        | none => fenceSearch f rest
      else fenceSearch f rest

/-- Text preparation of `parse_json_response`: strip, remove
`<think>` blocks, strip again. -/
def jsonPrep (raw : PyStr) : PyStr := pyStrip (stripThink (pyStrip raw))

/-- Model of `parse_json_response`: `Except.ok` with the parsed JSON
value, or `Except.error PyErr.valueError` for the final `raise`. -/
def parse_json_response (raw : PyStr) : Except PyErr JValue :=
  match pyLoads (jsonPrep raw) with
  | some v => Except.ok v
  | none =>
    match (fenceSearch (jsonPrep raw).length (jsonPrep raw)).bind
        (fun content => pyLoads (pyStrip content)) with
    | some v => Except.ok v
    | none =>
      match (jsonPrep raw).findIdx? (fun c => c = '{'),
          ((jsonPrep raw).reverse.findIdx? (fun c => c = '}')).map
            (fun i => (jsonPrep raw).length - 1 - i) with
      | some fb, some lb =>
        if fb < lb then
          match pyLoads (((jsonPrep raw).drop fb).take (lb - fb + 1)) with
          | some v => Except.ok v
          | none => Except.error PyErr.valueError
        else Except.error PyErr.valueError
      | _, _ => Except.error PyErr.valueError

/-- Characters that can begin no JSON value: ordinary text such as a
letter other than the literal starters `t`, `f`, `n`, `N`, `I`. -/
def inertStart (c : Char) : Bool :=
  !isPySpace c && !c.isDigit && c != '{' && c != '[' && c != '"' &&
    c != 't' && c != 'f' && c != 'n' && c != 'N' && c != 'I' && c != '-'

theorem isPySpace_of_jsonWs (c : Char) (h : jsonWs c = true) :
    isPySpace c = true := by
  simp only [jsonWs, Bool.or_eq_true, decide_eq_true_eq] at h
  simp only [isPySpace, Bool.or_eq_true, decide_eq_true_eq]
  tauto

theorem pyLoads_inert (c : Char) (rest : PyStr)
    (h : inertStart c = true) : pyLoads (c :: rest) = none := by
  simp only [inertStart, Bool.and_eq_true, Bool.not_eq_true', bne_iff_ne,
    ne_eq] at h
  obtain ⟨⟨⟨⟨⟨⟨⟨⟨⟨⟨hws, hdig⟩, hbr⟩, hbk⟩, hq⟩, ht⟩, hf⟩, hn⟩, hN⟩,
    hI⟩, hm⟩ := h
  have hval : ∀ fuel, parseVal fuel (c :: rest) = none := by
    intro fuel
    match fuel with
    | 0 => rfl
    | f + 1 =>
      have hjw : jsonWs c = false := by
        rcases Bool.eq_false_or_eq_true (jsonWs c) with hb | hb
        · rw [isPySpace_of_jsonWs c hb] at hws; cases hws
        · exact hb
      simp only [parseVal, List.dropWhile_cons, hjw, Bool.false_eq_true,
        if_false]
      rw [if_neg hbr, if_neg hbk, if_neg hq, if_neg ht, if_neg hf,
        if_neg hn, if_neg hN, if_neg hI, if_neg hm]
      rw [if_neg (by rw [hdig]; exact Bool.false_ne_true)]
  rw [pyLoads, hval]

theorem hasSubstr_cons (pat : PyStr) (c : Char) (rest : PyStr) :
    hasSubstr pat (c :: rest) =
      (pat.isPrefixOf (c :: rest) || hasSubstr pat rest) := by
  simp only [hasSubstr, splitOnFirst]
  by_cases hp : pat.isPrefixOf (c :: rest)
  · simp [hp]
  · simp [hp]

theorem splitOnFirst_eq_none (pat s : PyStr)
    (h : hasSubstr pat s = false) : splitOnFirst pat s = none := by
  rw [hasSubstr] at h
  match hs : splitOnFirst pat s with
  | none => rfl
  | some p => simp [hs] at h

theorem fenceSearch_eq_none :
    ∀ (fuel : Nat) (cs : PyStr), hasSubstr "```".data cs = false →
      fenceSearch fuel cs = none := by
  intro fuel
  induction fuel with
  | zero => intro cs _; rfl
  | succ f ih =>
    intro cs h
    match cs with
    | [] => rfl
    | c :: rest =>
      rw [hasSubstr_cons, Bool.or_eq_false_iff] at h
      simp only [fenceSearch, h.1, Bool.false_eq_true, if_false]
      exact ih rest h.2

theorem stripThink_eq_self (cs : PyStr)
    (h : hasSubstr "<think>".data cs = false) : stripThink cs = cs := by
  have hsp := splitOnFirst_eq_none _ _ h
  rw [stripThink]
  match cs.length with
  | 0 => rfl
  | f + 1 => simp only [stripThinkGo, hsp]

theorem hasSubstr_of_decomp (pat : PyStr) :
    ∀ (a b : PyStr), hasSubstr pat (a ++ pat ++ b) = true := by
  intro a
  induction a with
  | nil =>
    intro b
    match pat with
    | [] =>
      simp only [List.nil_append]
      match b with
      | [] => rfl
      | c :: r => rfl
    | p :: ps =>
      simp only [List.nil_append, List.cons_append, hasSubstr_cons]
      have : (p :: ps).isPrefixOf (p :: (ps ++ b)) = true := by
        rw [List.isPrefixOf_iff_prefix]
        exact List.prefix_append (p :: ps) b
      rw [this]
      rfl
  | cons c a' ih =>
    intro b
    simp only [List.cons_append, hasSubstr_cons]
    rw [ih b]
    simp

theorem hasSubstr_false_infix (pat m x y : PyStr)
    (h : hasSubstr pat (x ++ m ++ y) = false) : hasSubstr pat m = false := by
  by_contra hc
  rw [Bool.not_eq_false] at hc
  have hex : ∃ a b, m = a ++ pat ++ b := by
    clear h
    induction m with
    | nil =>
      simp only [hasSubstr, splitOnFirst] at hc
      by_cases hp : pat.isPrefixOf []
      · rw [List.isPrefixOf_iff_prefix] at hp
        have : pat = [] := List.prefix_nil.mp hp
        exact ⟨[], [], by simp [this]⟩
      · simp [hp] at hc
    | cons c m' ih =>
      rw [hasSubstr_cons] at hc
      rcases Bool.or_eq_true_iff.mp hc with hp | hp
      · rw [List.isPrefixOf_iff_prefix] at hp
        obtain ⟨t, ht⟩ := hp
        exact ⟨[], t, by simp [← ht]⟩
      · obtain ⟨a, b, hab⟩ := ih hp
        exact ⟨c :: a, b, by simp [hab]⟩
  obtain ⟨a, b, hab⟩ := hex
  subst hab
  have : hasSubstr pat ((x ++ a) ++ pat ++ (b ++ y)) = true :=
    hasSubstr_of_decomp pat (x ++ a) (b ++ y)
  rw [show (x ++ a) ++ pat ++ (b ++ y) = x ++ (a ++ pat ++ b) ++ y by
    simp [List.append_assoc]] at this
  rw [this] at h
  cases h

theorem dropTrailingWs_append (xs trail : PyStr) (d : Char)
    (hlast : xs.getLast? = some d) (hd : isPySpace d = false) :
    dropTrailingWs (xs ++ trail) = xs ++ dropTrailingWs trail := by
  have hxrev : ∃ t, xs.reverse = d :: t := by
    rw [List.getLast?_eq_head?_reverse] at hlast
    match hx : xs.reverse with
    | [] => rw [hx] at hlast; cases hlast
    | e :: t =>
      rw [hx] at hlast
      simp only [List.head?_cons, Option.some_inj] at hlast
      exact ⟨t, by rw [hlast]⟩
  obtain ⟨t, ht⟩ := hxrev
  rw [dropTrailingWs, List.reverse_append, List.dropWhile_append, ht]
  rw [List.dropWhile_cons, hd]
  simp only [Bool.false_eq_true, if_false]
  by_cases he : (List.dropWhile isPySpace trail.reverse).isEmpty
  · rw [if_pos he]
    rw [List.isEmpty_iff] at he
    rw [dropTrailingWs, he]
    simp [← ht]
  · rw [if_neg he]
    rw [List.reverse_append, ← ht, List.reverse_reverse, dropTrailingWs]

theorem dropTrailingWs_suffix (l : PyStr) :
    l = dropTrailingWs l ++ (l.reverse.takeWhile isPySpace).reverse := by
  conv_lhs => rw [← List.reverse_reverse l,
    ← List.takeWhile_append_dropWhile isPySpace l.reverse]
  rw [List.reverse_append, dropTrailingWs]

theorem dropTrailingWs_idem (l : PyStr) :
    dropTrailingWs (dropTrailingWs l) = dropTrailingWs l := by
  rw [dropTrailingWs, dropTrailingWs, List.reverse_reverse,
    List.dropWhile_idempotent]

theorem mem_of_mem_dropTrailingWs (l : PyStr) (x : Char)
    (hx : x ∈ dropTrailingWs l) : x ∈ l := by
  rw [dropTrailingWs, List.mem_reverse] at hx
  have := (List.dropWhile_sublist (p := isPySpace)
    (l := l.reverse)).subset hx
  rwa [List.mem_reverse] at this

/-- C5: the claim as frozen states that for every reply consisting of a
valid JSON object surrounded by unfenced leading or trailing explanatory
text, the parser succeeds via step (c).  It fails when the explanatory
text itself contains braces: in `"note \x7bx\x7d here: \x7b"a": 1\x7d"`
the JSON object `\x7b"a": 1\x7d` is surrounded by unfenced text, yet the
first-brace-to-last-brace substring is not valid JSON and the parser
raises `ValueError`. -/
theorem C5_counterexample :
    pyLoads "\x7b\"a\": 1\x7d".data =
      some (JValue.jobj [("a".data, JValue.jnum 1 0)]) ∧
    hasSubstr "```".data "note \x7bx\x7d here: \x7b\"a\": 1\x7d".data =
      false ∧
    parse_json_response "note \x7bx\x7d here: \x7b\"a\": 1\x7d".data =
      Except.error PyErr.valueError := ⟨rfl, rfl, rfl⟩

theorem inertStart_not_pySpace (c : Char) (h : inertStart c = true) :
    isPySpace c = false := by
  simp only [inertStart, Bool.and_eq_true, Bool.not_eq_true'] at h
  exact h.1.1.1.1.1.1.1.1.1.1

/-- C5 (amended): `parse_json_response` strips `<think>` blocks and
resolves JSON in order — (a) the whole prepared text, (b) the fenced
content, (c) the first-`\x7b`-to-last-`\x7d` substring; in particular a
valid JSON object surrounded by unfenced, think-free leading text
(beginning with an ordinary character that starts no JSON value) and
trailing text, *neither containing braces*, parses successfully via
step (c). -/
theorem C5_resolution_order (raw : PyStr) (c : Char)
    (lead' mid trail : PyStr) (v : JValue) :
    (∀ w, pyLoads (jsonPrep raw) = some w →
      parse_json_response raw = Except.ok w) ∧
    (∀ content w, pyLoads (jsonPrep raw) = none →
      fenceSearch (jsonPrep raw).length (jsonPrep raw) = some content →
      pyLoads (pyStrip content) = some w →
      parse_json_response raw = Except.ok w) ∧
    (inertStart c = true →
      '{' ∉ (c :: lead') → '}' ∉ trail →
      hasSubstr "```".data
        ((c :: lead') ++ (('{' :: mid ++ ['}']) ++ trail)) = false →
      hasSubstr "<think>".data
        ((c :: lead') ++ (('{' :: mid ++ ['}']) ++ trail)) = false →
      pyLoads ('{' :: mid ++ ['}']) = some v →
      parse_json_response
        ((c :: lead') ++ (('{' :: mid ++ ['}']) ++ trail)) =
        Except.ok v) := by
  refine ⟨fun w h => ?_, fun content w h1 h2 h3 => ?_,
    fun hin hlb htb hfence hthink hv => ?_⟩
  · rw [parse_json_response, h]
  · rw [parse_json_response, h1, h2]
    have hb : (some content).bind (fun content => pyLoads (pyStrip content)) =
        pyLoads (pyStrip content) := rfl
    rw [hb, h3]
  · have hcws : isPySpace c = false := inertStart_not_pySpace c hin
    have hslast :
        ((c :: lead') ++ ('{' :: mid ++ ['}'])).getLast? = some '}' := by
      rw [List.getLast?_append]
      rw [show ('{' :: mid ++ ['}']) = ('{' :: mid) ++ ['}'] from by simp]
      rw [List.getLast?_append]
      rfl
    have hdwc : ∀ t : PyStr, (c :: t).dropWhile isPySpace = c :: t := by
      intro t
      rw [List.dropWhile_cons, hcws]
      simp
    have hdt : dropTrailingWs
        ((c :: lead') ++ (('{' :: mid ++ ['}']) ++ trail)) =
        (c :: lead') ++ (('{' :: mid ++ ['}']) ++ dropTrailingWs trail)
        := by
      rw [show (c :: lead') ++ (('{' :: mid ++ ['}']) ++ trail) =
        ((c :: lead') ++ ('{' :: mid ++ ['}'])) ++ trail from by
          simp [List.append_assoc]]
      rw [dropTrailingWs_append _ _ '}' hslast (by decide)]
      simp [List.append_assoc]
    have hps1 : pyStrip ((c :: lead') ++ (('{' :: mid ++ ['}']) ++ trail))
        = (c :: lead') ++ (('{' :: mid ++ ['}']) ++ dropTrailingWs trail)
        := by
      rw [pyStrip, List.cons_append, hdwc, ← List.cons_append, hdt]
    have hwhole : (c :: lead') ++ (('{' :: mid ++ ['}']) ++ trail) =
        ((c :: lead') ++ (('{' :: mid ++ ['}']) ++ dropTrailingWs trail))
          ++ (((c :: lead') ++ (('{' :: mid ++ ['}']) ++
            trail)).reverse.takeWhile isPySpace).reverse := by
      conv_lhs => rw [dropTrailingWs_suffix
        ((c :: lead') ++ (('{' :: mid ++ ['}']) ++ trail))]
      rw [hdt]
    have hfenceT : hasSubstr "```".data
        ((c :: lead') ++ (('{' :: mid ++ ['}']) ++ dropTrailingWs trail))
        = false := by
      refine hasSubstr_false_infix _ _ []
        ((((c :: lead') ++ (('{' :: mid ++ ['}']) ++
          trail)).reverse.takeWhile isPySpace).reverse) ?_
      rw [List.nil_append, ← hwhole]
      exact hfence
    have hthinkT : hasSubstr "<think>".data
        ((c :: lead') ++ (('{' :: mid ++ ['}']) ++ dropTrailingWs trail))
        = false := by
      refine hasSubstr_false_infix _ _ []
        ((((c :: lead') ++ (('{' :: mid ++ ['}']) ++
          trail)).reverse.takeWhile isPySpace).reverse) ?_
      rw [List.nil_append, ← hwhole]
      exact hthink
    have hdt1 : dropTrailingWs (dropTrailingWs trail) =
        dropTrailingWs trail := dropTrailingWs_idem trail
    have hprep : jsonPrep ((c :: lead') ++ (('{' :: mid ++ ['}']) ++
        trail)) =
        (c :: lead') ++ (('{' :: mid ++ ['}']) ++ dropTrailingWs trail)
        := by
      rw [jsonPrep, hps1, stripThink_eq_self _ hthinkT]
      rw [pyStrip, List.cons_append, hdwc, ← List.cons_append]
      rw [show (c :: lead') ++ (('{' :: mid ++ ['}']) ++
        dropTrailingWs trail) =
        ((c :: lead') ++ ('{' :: mid ++ ['}'])) ++ dropTrailingWs trail
        from by simp [List.append_assoc]]
      rw [dropTrailingWs_append _ _ '}' hslast (by decide), hdt1]
    have hloadsT : pyLoads
        ((c :: lead') ++ (('{' :: mid ++ ['}']) ++ dropTrailingWs trail))
        = none := by
      rw [List.cons_append]
      exact pyLoads_inert c _ hin
    have hfsT : fenceSearch
        ((c :: lead') ++ (('{' :: mid ++ ['}']) ++
          dropTrailingWs trail)).length
        ((c :: lead') ++ (('{' :: mid ++ ['}']) ++ dropTrailingWs trail))
        = none := fenceSearch_eq_none _ _ hfenceT
    have hfb : ((c :: lead') ++ (('{' :: mid ++ ['}']) ++
        dropTrailingWs trail)).findIdx? (fun x => x = '{') =
        some (c :: lead').length := by
      rw [List.findIdx?_append]
      have hnone : (c :: lead').findIdx? (fun x => decide (x = '{')) =
          none :=
        List.findIdx?_eq_none_iff.mpr
          (fun x hx => decide_eq_false (fun he => hlb (he ▸ hx)))
      have hsome : (('{' :: mid ++ ['}']) ++
          dropTrailingWs trail).findIdx? (fun x => decide (x = '{')) =
          some 0 := by
        simp [List.findIdx?_cons]
      rw [hnone, hsome]
      simp
    have hTrev : ((c :: lead') ++ (('{' :: mid ++ ['}']) ++
        dropTrailingWs trail)).reverse =
        (dropTrailingWs trail).reverse ++
          ('}' :: ((mid.reverse ++ ['{']) ++ (c :: lead').reverse)) := by
      simp [List.reverse_append, List.append_assoc]
    have hrevfind : (((c :: lead') ++ (('{' :: mid ++ ['}']) ++
        dropTrailingWs trail)).reverse.findIdx? (fun x => x = '}')) =
        some (dropTrailingWs trail).length := by
      rw [hTrev, List.findIdx?_append]
      have hnone : (dropTrailingWs trail).reverse.findIdx?
          (fun x => decide (x = '}')) = none :=
        List.findIdx?_eq_none_iff.mpr
          (fun x hx => decide_eq_false (fun he => htb (he ▸
            (mem_of_mem_dropTrailingWs trail x
              (List.mem_reverse.mp hx)))))
      have hsome : ('}' :: ((mid.reverse ++ ['{']) ++
          (c :: lead').reverse)).findIdx? (fun x => decide (x = '}')) =
          some 0 := by
        simp [List.findIdx?_cons]
      rw [hnone, hsome]
      simp
    have hlbmap : ((((c :: lead') ++ (('{' :: mid ++ ['}']) ++
        dropTrailingWs trail)).reverse.findIdx? (fun x => x = '}')).map
          (fun i => ((c :: lead') ++ (('{' :: mid ++ ['}']) ++
            dropTrailingWs trail)).length - 1 - i)) =
        some ((c :: lead').length + (mid.length + 1)) := by
      rw [hrevfind]
      simp only [Option.map_some']
      congr 1
      simp only [List.length_append, List.length_cons, List.length_nil,
        List.length_reverse]
      omega
    rw [parse_json_response]
    simp only [hprep, hloadsT, hfsT, Option.none_bind, hfb, hlbmap]
    have hcond : (c :: lead').length <
        (c :: lead').length + (mid.length + 1) := by omega
    rw [if_pos hcond]
    have hdrop : (((c :: lead') ++ (('{' :: mid ++ ['}']) ++
        dropTrailingWs trail)).drop (c :: lead').length) =
        ('{' :: mid ++ ['}']) ++ dropTrailingWs trail :=
      List.drop_left _ _
    have harith : (c :: lead').length + (mid.length + 1) -
        (c :: lead').length + 1 = ('{' :: mid ++ ['}']).length := by
      simp only [List.length_append, List.length_cons, List.length_nil]
      omega
    rw [hdrop, harith, List.take_left, hv]

/-- Witness for C5's amended theorem: a JSON object with brace-free
unfenced surrounding text parses via step (c), and a bare JSON object
parses via step (a). -/
theorem C5_resolution_order_witness :
    parse_json_response "reply: \x7b\"a\": 1\x7d end".data =
      Except.ok (JValue.jobj [("a".data, JValue.jnum 1 0)]) ∧
    parse_json_response "\x7b\"a\": 1\x7d".data =
      Except.ok (JValue.jobj [("a".data, JValue.jnum 1 0)]) := by
  constructor
  · exact (C5_resolution_order "reply: \x7b\"a\": 1\x7d end".data 'r'
      "eply: ".data "\"a\": 1".data " end".data
      (JValue.jobj [("a".data, JValue.jnum 1 0)])).2.2
      (by decide) (by decide) (by decide) rfl rfl rfl
  · exact (C5_resolution_order "\x7b\"a\": 1\x7d".data 'x' [] [] []
      (JValue.jobj [("a".data, JValue.jnum 1 0)])).1
      (JValue.jobj [("a".data, JValue.jnum 1 0)]) rfl

/-! ### The revision controller `_extract_soul_doc`

`_extract_soul_doc` loops `for attempt in range(max_retries)`: it calls
the model, runs `parse_json_response` (`JSONDecodeError`/`ValueError`
are caught and the attempt repeats), then checks
`if "soul_doc" not in parsed:` — trying any key containing `"soul"`
whose value is a string — and otherwise returns `parsed["soul_doc"]`
*without inspecting the value*; after the loop it raises
`RuntimeError`.  On a non-dict `parsed` the membership test, `.items()`
or the subscript raise uncaught `TypeError`/`AttributeError`. -/

/-- The flexible key scan:
`for k, v in parsed.items(): if "soul" in k.lower() and
isinstance(v, str): return v`. -/
def findSoulKey : List (PyStr × JValue) → Option PyStr
  | [] => none
  | (k, v) :: rest =>
    match v with
    | JValue.jstr s =>
      if hasSubstr "soul".data (pyLower k) then some s
      else findSoulKey rest
    | _ => findSoulKey rest

/-- Which exception `"soul_doc" not in parsed` and what follows raise on
a non-dict `parsed`: membership on a list or string works (element
equality, substring), after which `.items()` raises `AttributeError` or
`parsed["soul_doc"]` raises `TypeError`; membership on any other type
raises `TypeError` outright. -/
def extractNonObjCrash : JValue → PyErr
  | JValue.jarr xs =>
    if xs.any (fun x =>
        match x with
        | JValue.jstr s => s = "soul_doc".data
        | _ => false)
      then PyErr.typeError else PyErr.attributeError
  | JValue.jstr s =>
    if hasSubstr "soul_doc".data s then PyErr.typeError
    else PyErr.attributeError
  | _ => PyErr.typeError

/-- One attempt of `_extract_soul_doc`: `ok (some v)` when the attempt
returns `v`, `ok none` when it falls through to the next retry, and
`error` when it raises an uncaught exception. -/
def extractAttempt (raw : PyStr) : Except PyErr (Option JValue) :=
  match parse_json_response raw with
  | Except.error _ => Except.ok none
  | Except.ok (JValue.jobj kvs) =>
    match objGet kvs "soul_doc".data with
    | some v => Except.ok (some v)
    | none =>
      match findSoulKey kvs with
      | some s => Except.ok (some (JValue.jstr s))
      | none => Except.ok none
  | Except.ok v => Except.error (extractNonObjCrash v)

/-- The retry loop of `_extract_soul_doc`, returning the final outcome
and the number of attempts made; `responses a` is the raw model reply of
attempt `a`. -/
def extractGo (responses : Nat → PyStr) : Nat → Nat →
    Except PyErr JValue × Nat
  | _, 0 => (Except.error PyErr.runtimeError, 0)
  | a, fuel + 1 =>
    match extractAttempt (responses a) with
    | Except.ok (some v) => (Except.ok v, 1)
    | Except.ok none =>
      let t := extractGo responses (a + 1) fuel
      (t.1, t.2 + 1)
    | Except.error e => (Except.error e, 1)

/-- Model of `_extract_soul_doc` in `iterative_revision.py`. -/
def _extract_soul_doc (responses : Nat → PyStr) (max_retries : Nat) :
    Except PyErr JValue × Nat :=
  extractGo responses 0 max_retries

theorem extractGo_allnone (responses : Nat → PyStr)
    (h : ∀ a, extractAttempt (responses a) = Except.ok none) :
    ∀ fuel a, extractGo responses a fuel =
      (Except.error PyErr.runtimeError, fuel) := by
  intro fuel
  induction fuel with
  | zero => intro a; rfl
  | succ m ih =>
    intro a
    simp only [extractGo, h a, ih (a + 1)]

theorem extractGo_first_success (responses : Nat → PyStr) :
    ∀ (k fuel a : Nat) (v : JValue), k < fuel →
      extractAttempt (responses (a + k)) = Except.ok (some v) →
      (∀ j, j < k → extractAttempt (responses (a + j)) = Except.ok none) →
      extractGo responses a fuel = (Except.ok v, k + 1) := by
  intro k
  induction k with
  | zero =>
    intro fuel a v hk hv _
    match fuel, hk with
    | fuel + 1, _ =>
      simp only [Nat.add_zero] at hv
      simp [extractGo, hv]
  | succ m ih =>
    intro fuel a v hk hv hfail
    match fuel, hk with
    | fuel + 1, hk =>
      have h0 : extractAttempt (responses a) = Except.ok none := by
        have := hfail 0 (Nat.succ_pos m)
        simpa using this
      have hv' : extractAttempt (responses (a + 1 + m)) =
          Except.ok (some v) := by
        rw [show a + 1 + m = a + (m + 1) from by omega]
        exact hv
      have hfail' : ∀ j, j < m →
          extractAttempt (responses (a + 1 + j)) = Except.ok none := by
        intro j hj
        rw [show a + 1 + j = a + (j + 1) from by omega]
        exact hfail (j + 1) (by omega)
      have := ih fuel (a + 1) v (by omega) hv' hfail'
      simp only [extractGo, h0, this]

/-- C3: the claim as frozen states that an extraction yielding an empty
string is rejected and retried.  It is not: a first reply of
`\x7b"soul_doc": ""\x7d` makes `_extract_soul_doc` return the empty
string as the new persona after a single attempt. -/
theorem C3_counterexample :
    _extract_soul_doc (fun _ => "\x7b\"soul_doc\": \"\"\x7d".data) 3 =
      (Except.ok (JValue.jstr []), 1) := rfl

/-- C3 (amended): `_extract_soul_doc` validates only that the parsed
JSON object carries a `soul_doc` key (or any `"soul"`-containing key
with a string value): whatever value that key holds — the empty string
included — is returned as the revised persona without further checks;
on parse failure or missing key it retries, making exactly
`max_retries` attempts in all, and after exhausting them it raises a
fatal `RuntimeError` that terminates the run, with no partial-success
fallback; a usable reply ends the loop at once. -/
theorem C3_extract_validation (responses : Nat → PyStr)
    (max_retries : Nat) :
    ((∀ a, extractAttempt (responses a) = Except.ok none) →
      _extract_soul_doc responses max_retries =
        (Except.error PyErr.runtimeError, max_retries)) ∧
    (∀ k v, k < max_retries →
      extractAttempt (responses k) = Except.ok (some v) →
      (∀ j, j < k → extractAttempt (responses j) = Except.ok none) →
      _extract_soul_doc responses max_retries = (Except.ok v, k + 1)) ∧
    (∀ raw kvs v,
      parse_json_response raw = Except.ok (JValue.jobj kvs) →
      objGet kvs "soul_doc".data = some v →
      extractAttempt raw = Except.ok (some v)) := by
  refine ⟨fun h => extractGo_allnone responses h max_retries 0,
    fun k v hk hv hf => ?_, fun raw kvs v hp hg => ?_⟩
  · exact extractGo_first_success responses k max_retries 0 v hk
      (by simpa using hv) (fun j hj => by simpa using hf j hj)
  · simp only [extractAttempt, hp, hg]

/-- Witness for C3's amended theorem: an unusable first reply followed
by a usable one ends after two attempts; all-garbage replies exhaust
the two configured attempts and raise `RuntimeError`. -/
theorem C3_extract_validation_witness :
    _extract_soul_doc
      (fun a => if a = 0 then "garbage".data
        else "\x7b\"soul_doc\": \"x\"\x7d".data) 3 =
      (Except.ok (JValue.jstr ['x']), 2) ∧
    _extract_soul_doc (fun _ => "nope".data) 2 =
      (Except.error PyErr.runtimeError, 2) := by
  constructor
  · exact (C3_extract_validation
      (fun a => if a = 0 then "garbage".data
        else "\x7b\"soul_doc\": \"x\"\x7d".data) 3).2.1 1
      (JValue.jstr ['x']) (by decide) rfl
      (fun j hj => by
        have hj0 : j = 0 := by omega
        subst hj0
        rfl)
  · exact (C3_extract_validation (fun _ => "nope".data) 2).1
      (fun _ => rfl)

end SoulPluralism
